import Mathlib

/-!
Shallow embedding of the SuiCity reconciliation scripts (update-nfts.js and
the staged variants shipped alongside it) together with proofs about the
frozen claims on that code.

Modelling conventions, used throughout:
* JS `undefined`/`null` string-valued fields are `Option String`; JS
  truthiness of a string is "present and nonempty" (`truthyS`).
* The store document for a user keeps exactly the fields the scripts read
  or write; `_id` is `uid : Nat`.
* The chain is an oracle `String → Option Nft` (result of
  `fetchNftFromWalletCached` per wallet address: `none` = no qualifying
  NFT).  For fault modelling the oracle may instead return
  `Except ChainErr (Option Nft)`; a `.error` models the promise rejection
  produced when `fetchWithRetry` throws.  Since the oracle is a function
  of the address, the per-run `nftCache` is semantically transparent and
  is not modelled separately.
* `Promise.all` over the per-user fetches is modelled as a left-to-right
  traversal: any rejection rejects the whole phase, which is all the
  claims need.
* Numbers are `Rat`; `toFixed(2)` is round-to-nearest at two decimals
  (`round` on `Rat`); the digit strings it produces are rendered and
  parsed exactly, character by character.
-/

set_option allowUnsafeReducibility true
attribute [local semireducible] Rat.mul Rat.add Rat.div Rat.sub Rat.neg Rat.inv

namespace SuiCity

/-- JS truthiness of an optional string field: `undefined`/`null`/`""` are falsy. -/
def truthyS : Option String → Bool
  | none => false
  | some s => s != ""

/-- The stored `nft` field: sometimes a scalar object-id string, sometimes a
legacy embedded object (whose contents the updater never reads), sometimes
absent. -/
inductive NftVal where
  | missing
  | str (s : String)
  | obj
  deriving DecidableEq, Repr

/-- JS truthiness of the stored `nft` value (an object is always truthy). -/
def NftVal.truthy : NftVal → Bool
  | .missing => false
  | .str s => s != ""
  | .obj => true

/-- `typeof user.nft === "string"`. -/
def NftVal.isStr : NftVal → Bool
  | .str _ => true
  | _ => false

/-- `typeof user.nft === "object"` (for a present value). -/
def NftVal.isObj : NftVal → Bool
  | .obj => true
  | _ => false

/-- The fetched NFT snapshot, collapsed to the three paths the updater
dereferences: `fetchedNft.data.objectId`, `.data.content.fields.name` and
`.data.content.fields.wallet`.  A missing intermediate object makes the
leaf `none`, exactly like the optional chaining in the source. -/
structure Nft where
  objectId : Option String
  name : Option String
  wallet : Option String
  deriving DecidableEq, Repr

/-- A document of the `bindings` collection, restricted to the fields the
scripts touch. -/
structure UserRec where
  uid : Nat
  walletAddress : Option String
  refNumber : Option Int
  nft : NftVal
  nftName : Option String
  walletId : Option String
  nftData : Option Nft
  telegramId : Option String
  twitterId : Option String
  population : Rat
  deriving DecidableEq, Repr

/-- The address string passed to the chain for a user (only ever used when
`walletAddress` is truthy). -/
def waddr (u : UserRec) : String := u.walletAddress.getD ""

/-- `users.filter((u) => u.walletAddress)`. -/
def validUser (u : UserRec) : Bool := truthyS u.walletAddress

/-- The skip guard of the fetch phase:
`user.nft && user.walletId && user.nftData && typeof user.nft === "string"`. -/
def fastPath (u : UserRec) : Bool :=
  u.nft.truthy && truthyS u.walletId && u.nftData.isSome && u.nft.isStr

/-- Fetch phase for one user (updateNftFieldsAndWalletIds, first map):
returns `(fetchedNft, forceUpdate)`. -/
def phase1One (f : String → Option Nft) (u : UserRec) : Option Nft × Bool :=
  if u.nft.truthy && u.nft.isObj then (f (waddr u), true)
  else if fastPath u then (none, false)
  else (f (waddr u), false)

/-- An update document `{ $set: ... }`: `none` = field not set.  The `nft`
field is set to `fetchedNft?.data?.objectId`, which may itself be absent
(serialized as null), hence the nested option. -/
structure UpdateDoc where
  walletId : Option String := none
  nftName : Option String := none
  nft : Option (Option String) := none
  nftData : Option Nft := none
  deriving DecidableEq, Repr

/-- JS strict equality `user.nft === fetchedNftId` between the stored `nft`
value and the fetched object id. -/
def nftValEq : NftVal → Option String → Bool
  | .str s, some t => s == t
  | .missing, none => true
  | _, _ => false

/-- `fetchedNft?.data?.content?.fields?.name || "Unnamed NFT"`. -/
def jsName (f : Nft) : String := if truthyS f.name then f.name.getD "" else "Unnamed NFT"

/-- Per-record outcome of the decision loop of `updateNftFieldsAndWalletIds`. -/
inductive Decision where
  | skip
  | del
  | noWallet
  | write (doc : UpdateDoc)
  deriving DecidableEq, Repr

/-- `user.walletId !== walletObjectId` (the wallet-container id differs). -/
def wIdCondOf (u : UserRec) (wo : String) : Bool := u.walletId != some wo

/-- `!user.nft || user.nft !== fetchedNftId || typeof user.nft === "object"`. -/
def nftCondOf (u : UserRec) (f : Nft) : Bool :=
  !u.nft.truthy || !nftValEq u.nft f.objectId || u.nft.isObj

/-- `!user.nftData || needsUpdate || forceUpdate` at the point where
`needsUpdate` reflects the two previous checks. -/
def dataCondOf (u : UserRec) (f : Nft) (force : Bool) : Bool :=
  !u.nftData.isSome || wIdCondOf u (f.wallet.getD "") || nftCondOf u f || force

/-- The `$set` document assembled by the three checks. -/
def buildDoc (u : UserRec) (f : Nft) (force : Bool) : UpdateDoc :=
  { walletId := if wIdCondOf u (f.wallet.getD "") then some (f.wallet.getD "") else none
    nftName := if wIdCondOf u (f.wallet.getD "") || nftCondOf u f then some (jsName f) else none
    nft := if nftCondOf u f then some f.objectId else none
    nftData := if dataCondOf u f force then some f else none }

/-- Decision loop body of `updateNftFieldsAndWalletIds` for one record,
given the fetch-phase result for it. -/
def decideRec (u : UserRec) (fetched : Option Nft) (force : Bool) : Decision :=
  match fetched with
  | none =>
    if u.nft.truthy && truthyS u.walletId && u.nftData.isSome && !force then .skip
    else .del
  | some f =>
    if !truthyS f.wallet then .noWallet
    else if wIdCondOf u (f.wallet.getD "") || nftCondOf u f || dataCondOf u f force then
      .write (buildDoc u f force)
    else .skip

/-- Full per-user pipeline (fetch phase then decision loop), for a total
chain oracle. -/
def processUser (f : String → Option Nft) (u : UserRec) : Decision :=
  decideRec u (phase1One f u).1 (phase1One f u).2

/-- The bulk-write batch of update documents produced by one run of
`updateNftFieldsAndWalletIds` (push order = filtered user order). -/
def updatesOf (f : String → Option Nft) (users : List UserRec) : List (Nat × UpdateDoc) :=
  (users.filter validUser).filterMap fun u =>
    match processUser f u with
    | .write doc => some (u.uid, doc)
    | _ => none

/-- The ids removed via `collection.deleteOne` during the decision loop. -/
def deletedOf (f : String → Option Nft) (users : List UserRec) : List Nat :=
  (users.filter validUser).filterMap fun u =>
    match processUser f u with
    | .del => some u.uid
    | _ => none

/-- Tally `walletIdUpdatedCount` (a document increments it iff its
`walletId` field is set). -/
def walletIdUpdCount (f : String → Option Nft) (users : List UserRec) : Nat :=
  ((updatesOf f users).filter fun p => p.2.walletId.isSome).length

/-- Tally `nftFieldUpdatedCount`. -/
def nftFieldUpdCount (f : String → Option Nft) (users : List UserRec) : Nat :=
  ((updatesOf f users).filter fun p => p.2.nft.isSome).length

/-- Applying `$set { nft: v }`: an absent fetched id is serialized as null,
so the stored field becomes falsy. -/
def setNftVal : Option String → NftVal
  | some s => .str s
  | none => .missing

/-- Effect of one update document on its (uniquely `_id`-matched) record. -/
def applyDoc (doc : UpdateDoc) (u : UserRec) : UserRec :=
  { u with
    walletId := match doc.walletId with | some w => some w | none => u.walletId
    nftName := match doc.nftName with | some s => some s | none => u.nftName
    nft := match doc.nft with | some v => setNftVal v | none => u.nft
    nftData := match doc.nftData with | some d => some d | none => u.nftData }

/-- Fate of one record under a run: deleted, patched by its update document,
or untouched.  (`_id`s are unique in the store, so the `deleteOne` and
`updateOne`-by-`_id` operations of the run act exactly record-wise.) -/
def userFate (f : String → Option Nft) (u : UserRec) : Option UserRec :=
  if validUser u then
    match processUser f u with
    | .del => none
    | .write doc => some (applyDoc doc u)
    | _ => some u
  else some u

/-- Store contents after one run of the updater. -/
def newUsers (f : String → Option Nft) (users : List UserRec) : List UserRec :=
  users.filterMap (userFate f)

/-- A store mutation issued by the updater. -/
inductive StoreOp where
  | deleteOne (uid : Nat)
  | bulkWrite (ups : List (Nat × UpdateDoc))
  deriving DecidableEq, Repr

/-- Observable event of the updater's decision loop: a record's decision
being computed, or a store mutation being issued. -/
inductive UpdEvent where
  | decided (uid : Nat)
  | store (op : StoreOp)
  deriving DecidableEq, Repr

/-- Event trace of the decision loop of `updateNftFieldsAndWalletIds`:
`deleteOne` is awaited immediately inside the loop, while the update
documents are accumulated and flushed as a single `bulkWrite` after it
(only when non-empty). -/
def eventsOf (f : String → Option Nft) (users : List UserRec) : List UpdEvent :=
  ((users.filter validUser).flatMap fun u =>
    UpdEvent.decided u.uid ::
      (match processUser f u with
       | .del => [UpdEvent.store (StoreOp.deleteOne u.uid)]
       | _ => []))
  ++ (if updatesOf f users = [] then []
      else [UpdEvent.store (StoreOp.bulkWrite (updatesOf f users))])

/-- Failure of a chain query as surfaced by `fetchWithRetry`. -/
inductive ChainErr where
  | retryExhausted (attempts : Nat)
  | other (code : Nat)
  deriving DecidableEq, Repr

/-- Fetch phase for one user against a fallible oracle.  The mapped lambda
in the source has no try/catch, so an oracle error becomes a rejection. -/
def phase1OneE (chain : String → Except ChainErr (Option Nft)) (u : UserRec) :
    Except ChainErr (Option Nft × Bool) :=
  if u.nft.truthy && u.nft.isObj then (chain (waddr u)).map (fun r => (r, true))
  else if fastPath u then .ok (none, false)
  else (chain (waddr u)).map (fun r => (r, false))

/-- `Promise.all` over the fetch phase: one rejection rejects the batch. -/
def phase1AllE (chain : String → Except ChainErr (Option Nft)) :
    List UserRec → Except ChainErr (List (UserRec × Option Nft × Bool))
  | [] => .ok []
  | u :: us =>
    match phase1OneE chain u with
    | .error e => .error e
    | .ok r =>
      match phase1AllE chain us with
      | .error e => .error e
      | .ok rs => .ok ((u, r) :: rs)

/-- Result summary of one updater run (batch plus deletions). -/
structure UpdOut where
  updates : List (Nat × UpdateDoc)
  deleted : List Nat
  deriving DecidableEq, Repr

/-- Decision loop over the fetch-phase results. -/
def phase2 (rs : List (UserRec × Option Nft × Bool)) : UpdOut :=
  { updates := rs.filterMap fun t =>
      match decideRec t.1 t.2.1 t.2.2 with
      | .write doc => some (t.1.uid, doc)
      | _ => none
    deleted := rs.filterMap fun t =>
      match decideRec t.1 t.2.1 t.2.2 with
      | .del => some t.1.uid
      | _ => none }

/-- `updateNftFieldsAndWalletIds` against a fallible chain: the whole run
rejects if any per-record fetch rejects. -/
def runUpdaterE (chain : String → Except ChainErr (Option Nft)) (users : List UserRec) :
    Except ChainErr UpdOut :=
  (phase1AllE chain (users.filter validUser)).map phase2

/-- A total oracle seen as a fallible one. -/
def chainOf (f : String → Option Nft) : String → Except ChainErr (Option Nft) :=
  fun w => .ok (f w)

/-! ### Reference number allocator (`generateRefNumbers`) -/

/-- `!user.refNumber`: absent, null and the number 0 are all falsy. -/
def refTruthy : Option Int → Bool
  | none => false
  | some r => r != 0

/-- `lowerBound` of the draw range. -/
def refLowerBound : Int := 20000

/-- State threaded through the allocator: the in-memory used set (a JS
`Set`), the current (widenable) upper bound, and the index of the next
value of the random stream. -/
structure GenSt where
  used : List Int
  ub : Int
  k : Nat
  deriving Repr

/-- One `Math.floor(Math.random() * (upperBound - lowerBound + 1)) + lowerBound`
draw, where `rand k` is the k-th value of the random stream. -/
def drawVal (rand : Nat → Rat) (st : GenSt) : Int :=
  ⌊rand st.k * (st.ub - refLowerBound + 1)⌋ + refLowerBound

/-- The `while (true)` draw-retry loop for one record.  `fuel` bounds the
iterations (the source loop has no static bound); running out yields
`none`, a modelling artifact that no claim depends on.  On a collision the
attempt counter is bumped and, past 100, the upper bound is widened by
100000 and the counter reset; the used set is only extended on success. -/
def drawRef (rand : Nat → Rat) : Nat → GenSt → Nat → Option (Int × GenSt)
  | 0, _, _ => none
  | fuel + 1, st, attemptCount =>
    let r := drawVal rand st
    let st1 : GenSt := { st with k := st.k + 1 }
    if r ∈ st.used then
      let a := attemptCount + 1
      if a > 100 then drawRef rand fuel { st1 with ub := st1.ub + 100000 } 0
      else drawRef rand fuel st1 a
    else some (r, { st1 with used := r :: st1.used })

/-- The allocator's per-user loop: users whose `refNumber` is truthy are
skipped; the rest get a fresh draw, pushed to the bulk update list. -/
def genRefGo (rand : Nat → Rat) (fuel : Nat) :
    List UserRec → GenSt → Option (List (Nat × Int))
  | [], _ => some []
  | u :: us, st =>
    if refTruthy u.refNumber then genRefGo rand fuel us st
    else
      match drawRef rand fuel st 0 with
      | none => none
      | some (r, st1) =>
        match genRefGo rand fuel us st1 with
        | none => none
        | some ups => some ((u.uid, r) :: ups)

/-- `generateRefNumbers`: `existing` is the collection's set of already
present `refNumber` values (loaded once at run start), the result is the
bulk update list `(_id, refNumber)`. -/
def genRefNumbers (rand : Nat → Rat) (fuel : Nat) (existing : List Int)
    (users : List UserRec) : Option (List (Nat × Int)) :=
  genRefGo rand fuel users { used := existing, ub := 100000, k := 0 }

/-! ### Backoff retry wrapper (`fetchWithRetry`) -/

/-- `MAX_RETRIES` of update-nfts.js. -/
def MAX_RETRIES : Nat := 10

/-- `BACKOFF_TIME` (milliseconds) of update-nfts.js. -/
def BACKOFF_TIME : Nat := 1500

/-- Outcome of one invocation of the wrapped query: success, an error with
`status === 429`, or any other error (tagged by a code). -/
inductive FetchOutcome (α : Type) where
  | ok (v : α)
  | rateLimited
  | otherError (code : Nat)
  deriving DecidableEq, Repr

/-- What `fetchWithRetry` ends with: the result, an immediately propagated
non-429 error, or the `Max retries reached` error carrying the attempt
count. -/
inductive FetchResult (α : Type) where
  | ok (v : α)
  | otherError (code : Nat)
  | retryExhausted (attempts : Nat)
  deriving DecidableEq, Repr

/-- The retry loop: `left` attempts remain, `q k` is the outcome of the
k-th invocation.  Returns the result, the number of invocations made and
the list of backoff sleeps performed (one per 429). -/
def retryGo (q : Nat → FetchOutcome α) : Nat → Nat → FetchResult α × Nat × List Nat
  | 0, _ => (.retryExhausted MAX_RETRIES, 0, [])
  | left + 1, k =>
    match q k with
    | .ok v => (.ok v, 1, [])
    | .otherError e => (.otherError e, 1, [])
    | .rateLimited =>
      match retryGo q left (k + 1) with
      | (r, c, s) => (r, c + 1, BACKOFF_TIME :: s)

/-- `fetchWithRetry`, starting with the full attempt budget. -/
def fetchWithRetry (q : Nat → FetchOutcome α) : FetchResult α × Nat × List Nat :=
  retryGo q MAX_RETRIES 0

/-! ### Stake aggregator (`countStakedSitizens`, update-nfts.js version) -/

/-- Minimal JS value universe for `extra_nested_data` contents. -/
inductive JsVal where
  | vstr (s : String)
  | vnum (q : Rat)
  | varr (xs : List JsVal)
  | vnull

/-- JS strict equality of a value with a string literal (`x === "0"` etc.):
true only for an equal string. -/
def jsStrEq (x : JsVal) (t : String) : Bool :=
  match x with
  | .vstr s => s == t
  | _ => false

/-- JS truthiness of a `JsVal` (arrays are objects, hence truthy). -/
def JsVal.truthy : JsVal → Bool
  | .vstr s => s != ""
  | .vnum q => q != 0
  | .varr _ => true
  | .vnull => false

/-- `Array.isArray`. -/
def JsVal.asArr : JsVal → Option (List JsVal)
  | .varr xs => some xs
  | _ => none

/-- One document of the aggregator's scan, i.e. the projection
`{ walletAddress, nftData.content.fields.extra_nested_data }` of a record
matched by the `nftData.content.fields $exists` filter. -/
structure StakeDoc where
  walletAddress : Option String
  extra : Option JsVal

/-- The per-category counters returned by `countStakedSitizens`. -/
structure StakeTypes where
  total : Nat := 0
  sivilian : Nat := 0
  general : Nat := 0
  officer : Nat := 0
  clown : Nat := 0
  engineer : Nat := 0
  legendary : Nat := 0
  deriving DecidableEq, Repr

/-- Loop body for one staked entry: every entry bumps `total`; the
category counter is picked by strict string comparison with the tags
"0".."5" (an unknown tag is only logged). -/
def countEntry (t : StakeTypes) (x : JsVal) : StakeTypes :=
  let t := { t with total := t.total + 1 }
  if jsStrEq x "0" then { t with sivilian := t.sivilian + 1 }
  else if jsStrEq x "1" then { t with general := t.general + 1 }
  else if jsStrEq x "2" then { t with officer := t.officer + 1 }
  else if jsStrEq x "3" then { t with clown := t.clown + 1 }
  else if jsStrEq x "4" then { t with engineer := t.engineer + 1 }
  else if jsStrEq x "5" then { t with legendary := t.legendary + 1 }
  else t

/-- Loop body for one scanned document: requires truthy
`extra_nested_data` that is a two-element array whose second element is an
array, then counts each of its entries. -/
def countDoc (t : StakeTypes) (d : StakeDoc) : StakeTypes :=
  match d.extra with
  | none => t
  | some e =>
    if e.truthy then
      match e.asArr with
      | some xs =>
        if xs.length = 2 then
          match (xs.getD 1 .vnull).asArr with
          | some staked => staked.foldl countEntry t
          | none => t
        else t
      | none => t
    else t

/-- `countStakedSitizens` over the scanned documents. -/
def countStakedSitizens (docs : List StakeDoc) : StakeTypes :=
  docs.foldl countDoc {}

/-- The entries a document actually contributes (empty unless the nested
structure is well-shaped).  Used to characterize the aggregator. -/
def stakeEntries (d : StakeDoc) : List JsVal :=
  match d.extra with
  | none => []
  | some e =>
    if e.truthy then
      match e.asArr with
      | some xs =>
        if xs.length = 2 then
          match (xs.getD 1 .vnull).asArr with
          | some staked => staked
          | none => []
        else []
      | none => []
    else []

/-- Reference definition following the claim's words: the second element of
the two-element structure is a sequence of per-category counts; the entry
at index i (0 through 5) is parsed as a non-negative integer count added
to category i and to the total; a record with wrong arity or an
unparseable entry among those positions contributes nothing. -/
def parseNonNegInt : JsVal → Option Nat
  | .vstr s =>
    if s ≠ "" ∧ s.toList.all (fun c => 48 ≤ c.toNat && c.toNat ≤ 57) then
      some (s.toList.foldl (fun a c => 10 * a + (c.toNat - 48)) 0)
    else none
  | .vnum q => if q.den = 1 ∧ 0 ≤ q.num then some q.num.toNat else none
  | _ => none

/-- Per-category counts of one document under the claim's reference
reading: `none` when the document is malformed. -/
def claimDocCounts (d : StakeDoc) : Option (List Nat) :=
  match d.extra with
  | none => none
  | some e =>
    match e.asArr with
    | some xs =>
      if xs.length = 2 then
        match (xs.getD 1 .vnull).asArr with
        | some counts =>
          ((counts.take 6).mapM parseNonNegInt)
        | none => none
      else none
    | none => none

/-- Totals under the claim's reference reading: category i accumulates the
parsed count at index i, malformed documents contribute zero everywhere. -/
def claimStakeTotals (docs : List StakeDoc) : StakeTypes :=
  docs.foldl
    (fun t d =>
      match claimDocCounts d with
      | none => t
      | some cs =>
        { total := t.total + cs.sum
          sivilian := t.sivilian + cs.getD 0 0
          general := t.general + cs.getD 1 0
          officer := t.officer + cs.getD 2 0
          clown := t.clown + cs.getD 3 0
          engineer := t.engineer + cs.getD 4 0
          legendary := t.legendary + cs.getD 5 0 })
    {}

/-! ### Duplicate scan (main, update-nfts.js) -/

/-- The truthy values of a string field, in record order (the keys over
which the count objects of the scan accumulate). -/
def truthyField (g : UserRec → Option String) (users : List UserRec) : List String :=
  users.filterMap fun u =>
    match g u with
    | some a => if a != "" then some a else none
    | none => none

/-- The keys of a count object whose count exceeds 1
(`Object.entries(...).filter(([, count]) => count > 1)`). -/
def dupsOf (g : UserRec → Option String) (users : List UserRec) : List String :=
  (truthyField g users).dedup.filter fun a => 2 ≤ (truthyField g users).count a

/-- `duplicateWalletAddresses` of main. -/
def duplicateWalletAddresses (users : List UserRec) : List String :=
  dupsOf (fun u => u.walletAddress) users

/-- `duplicateTelegramIds` of main. -/
def duplicateTelegramIds (users : List UserRec) : List String :=
  dupsOf (fun u => u.telegramId) users

/-! ### Balance formatting (`formatBalance`, `parseBalance`,
`fetchSityBalance`, `fetchAndStoreBalances`) -/

/-- Decimal digits, most significant first; the fuel only bounds the
recursion depth (`natDigits` supplies enough) and keeps the definition
structurally recursive, hence kernel-computable. -/
def natDigitsAux : Nat → Nat → List Char
  | 0, _ => []
  | fuel + 1, n =>
    if n < 10 then [Nat.digitChar n]
    else natDigitsAux fuel (n / 10) ++ [Nat.digitChar (n % 10)]

/-- Decimal digits of a natural number, most significant first. -/
def natDigits (n : Nat) : List Char := natDigitsAux (n + 1) n

/-- The fractional two digits, zero padded. -/
def pad2 (m : Nat) : List Char :=
  if m < 10 then ['0', Nat.digitChar m] else natDigits m

/-- Render `n / 100` with exactly two decimals (`(n/100).toFixed(2)` for a
non-negative scaled integer `n`). -/
def renderCents (n : Nat) : String :=
  ⟨natDigits (n / 100) ++ '.' :: pad2 (n % 100)⟩

/-- `x.toFixed(2)`: round to nearest at two decimals, then render.  A
negative value gets a sign (never produced by the scripts' inputs). -/
def renderFixed2 (x : Rat) : String :=
  let n : Int := round (x * 100)
  if n < 0 then "-" ++ renderCents n.natAbs else renderCents n.toNat

/-- `formatBalance` of update-nfts.js: threshold-chosen suffix, two-decimal
mantissa. -/
def formatBalance (balance : Rat) : String :=
  if balance ≥ 10 ^ 12 then renderFixed2 (balance / 10 ^ 12) ++ "t"
  else if balance ≥ 10 ^ 9 then renderFixed2 (balance / 10 ^ 9) ++ "b"
  else if balance ≥ 10 ^ 6 then renderFixed2 (balance / 10 ^ 6) ++ "m"
  else if balance ≥ 10 ^ 3 then renderFixed2 (balance / 10 ^ 3) ++ "k"
  else renderFixed2 balance

/-- Is this character an ASCII digit. -/
def isDig (c : Char) : Bool := 48 ≤ c.toNat && c.toNat ≤ 57

/-- Numeric value of an ASCII digit character. -/
def digitVal (c : Char) : Nat := c.toNat - 48

/-- Consume leading digits: accumulated value, number of digits consumed,
remaining characters. -/
def takeDigits : List Char → Nat → Nat × Nat × List Char
  | [], acc => (acc, 0, [])
  | c :: cs, acc =>
    if isDig c then
      match takeDigits cs (10 * acc + digitVal c) with
      | (v, k, r) => (v, k + 1, r)
    else (acc, 0, c :: cs)

/-- Does the character list not start with a digit (the parser would stop
right there). -/
def headNotDig : List Char → Bool
  | [] => true
  | c :: _ => !isDig c

/-- The characters after a leading decimal point, if any. -/
def afterPoint : List Char → Option (List Char)
  | [] => none
  | c :: cs => if c = '.' then some cs else none

/-- The characters after a leading minus sign, if any. -/
def afterSign : List Char → Option (List Char)
  | [] => none
  | c :: cs => if c = '-' then some cs else none

/-- The fragment of JS `parseFloat` exercised by the report strings:
leading digits, an optional point with fraction digits; parsing stops at
the first other character; no leading digits at all is `NaN` (`none`).
The sign is handled by `jsParseFloat`. -/
def jsParseFloatCore (cs : List Char) : Option Rat :=
  let t := takeDigits cs 0
  if t.2.1 = 0 then none
  else
    match afterPoint t.2.2 with
    | some r2 =>
      let tf := takeDigits r2 0
      some ((t.1 : Rat) + (tf.1 : Rat) / 10 ^ tf.2.1)
    | none => some ((t.1 : Rat))

/-- `parseFloat` on a string. -/
def jsParseFloat (s : String) : Option Rat :=
  match afterSign s.toList with
  | some cs => (jsParseFloatCore cs).map Neg.neg
  | none => jsParseFloatCore s.toList

/-- `val.replace(/k|m/g, "")`. -/
def stripKm (s : String) : String :=
  ⟨s.toList.filter fun c => !(c = 'k' || c = 'm')⟩

/-- The `parseBalance` closure of `fetchAndStoreBalances`: strip `k`/`m`,
`parseFloat`, then scale by the suffix the original string contains.  The
`b` and `t` suffixes are not handled.  A `NaN` parse is modelled as 0 (it
never arises on `formatBalance` output, which always starts with a
digit). -/
def parseBalance (val : String) : Rat :=
  let num := (jsParseFloat (stripKm val)).getD 0
  if val.toList.contains 'm' then num * 10 ^ 6
  else if val.toList.contains 'k' then num * 10 ^ 3
  else num

/-- `fetchSityBalance`: the wallet-container fetch through the retry
wrapper, inside try/catch.  The oracle returns the raw
`fields.balance` (`none` = field absent, `|| 0`); `.error` is a thrown
fetch failure, turned into balance 0 by the catch.  The raw value is
scaled by 1e3. -/
def fetchSityBalance (oracle : String → Except Unit (Option Rat)) (walletId : String) : Rat :=
  match oracle walletId with
  | .error _ => 0
  | .ok raw => raw.getD 0 / 10 ^ 3

/-- Per-user balance in `fetchAndStoreBalances`:
`user.walletId ? await fetchSityBalance(...) : 0`. -/
def balOf (oracle : String → Except Unit (Option Rat)) (u : UserRec) : Rat :=
  if truthyS u.walletId then fetchSityBalance oracle (u.walletId.getD "") else 0

/-- One row of the balances report. -/
structure BalanceRow where
  twitterId : Option String
  walletAddress : Option String
  sityBalance : String
  population : Rat
  percentageHolding : String
  deriving DecidableEq, Repr

/-- `totalBalance` of the run. -/
def totalBalance (oracle : String → Except Unit (Option Rat)) (users : List UserRec) : Rat :=
  (users.map (balOf oracle)).sum

/-- The `userBalances` rows, in input order. -/
def mkRows (oracle : String → Except Unit (Option Rat)) (users : List UserRec) :
    List BalanceRow :=
  users.map fun u =>
    let total := totalBalance oracle users
    let pct : Rat := if total > 0 then balOf oracle u / total * 100 else 0
    { twitterId := u.twitterId
      walletAddress := u.walletAddress
      sityBalance := formatBalance (balOf oracle u)
      population := u.population
      percentageHolding := renderFixed2 pct ++ "%" }

/-- Sort key used by the report's comparator. -/
def rowKey (r : BalanceRow) : Rat := parseBalance r.sityBalance

/-- Stable descending insertion: the element goes after every earlier
element whose key is at least its own (`Array.prototype.sort` with
comparator `(a, b) => parseBalance(b.sityBalance) - parseBalance(a.sityBalance)`,
stable per ES2019). -/
def insertDesc (x : BalanceRow) : List BalanceRow → List BalanceRow
  | [] => [x]
  | y :: ys => if rowKey y < rowKey x then x :: y :: ys else y :: insertDesc x ys

/-- The sort of `userBalances`. -/
def sortDesc (rows : List BalanceRow) : List BalanceRow :=
  rows.foldl (fun acc x => insertDesc x acc) []

/-- The sorted report written to sorted_balances.json. -/
def sortedBalances (oracle : String → Except Unit (Option Rat)) (users : List UserRec) :
    List BalanceRow :=
  sortDesc (mkRows oracle users)

/-- The scale divisor `formatBalance` picks for a value. -/
def scaleOf (b : Rat) : Rat :=
  if b ≥ 10 ^ 12 then 10 ^ 12
  else if b ≥ 10 ^ 9 then 10 ^ 9
  else if b ≥ 10 ^ 6 then 10 ^ 6
  else if b ≥ 10 ^ 3 then 10 ^ 3
  else 1

/-- The suffix `formatBalance` appends. -/
def suffixOf (b : Rat) : String :=
  if b ≥ 10 ^ 12 then "t"
  else if b ≥ 10 ^ 9 then "b"
  else if b ≥ 10 ^ 6 then "m"
  else if b ≥ 10 ^ 3 then "k"
  else ""

/-- The store mutations among a trace of updater events. -/
def storeOpsOf (es : List UpdEvent) : List StoreOp :=
  es.filterMap fun e =>
    match e with
    | .store op => some op
    | _ => none

/-- All staked entries contributed across the scanned documents. -/
def allEntries (docs : List StakeDoc) : List JsVal :=
  (docs.map stakeEntries).flatten

/-- How many entries strictly equal the given tag string. -/
def tagCount (t : String) (xs : List JsVal) : Nat :=
  (xs.filter fun x => jsStrEq x t).length

/-! ## Theorems -/

/-- An all-rate-limited window exhausts the remaining budget, sleeping the
fixed backoff once per attempt. -/
theorem retryGo_rateAll {α : Type} (q : Nat → FetchOutcome α) :
    ∀ left k0, (∀ j, j < left → q (k0 + j) = .rateLimited) →
      retryGo q left k0 =
        (.retryExhausted MAX_RETRIES, left, List.replicate left BACKOFF_TIME) := by
  intro left
  induction left with
  | zero => intro k0 _; rfl
  | succ l ih =>
    intro k0 h
    have h0 : q k0 = .rateLimited := by simpa using h 0 (by omega)
    have htail : ∀ j, j < l → q (k0 + 1 + j) = .rateLimited := by
      intro j hj
      have := h (j + 1) (by omega)
      simpa [Nat.add_assoc, Nat.add_comm 1 j] using this
    simp [retryGo, h0, ih (k0 + 1) htail, List.replicate_succ]

/-- If the first `k` invocations are rate limited and the k-th one is not,
the loop stops there: a success is returned as is, any other error
propagates, and exactly `k` backoff sleeps happened. -/
theorem retryGo_stops {α : Type} (q : Nat → FetchOutcome α) :
    ∀ k left k0, k < left → (∀ j, j < k → q (k0 + j) = .rateLimited) →
      (∀ v, q (k0 + k) = .ok v →
        retryGo q left k0 = (.ok v, k + 1, List.replicate k BACKOFF_TIME)) ∧
      (∀ e, q (k0 + k) = .otherError e →
        retryGo q left k0 = (.otherError e, k + 1, List.replicate k BACKOFF_TIME)) := by
  intro k
  induction k with
  | zero =>
    intro left k0 hlt _
    match left, hlt with
    | l + 1, _ =>
      constructor
      · intro v hv
        simp only [Nat.add_zero] at hv
        simp [retryGo, hv]
      · intro e he
        simp only [Nat.add_zero] at he
        simp [retryGo, he]
  | succ k ih =>
    intro left k0 hlt hpre
    match left, hlt with
    | l + 1, _ =>
      have h0 : q k0 = .rateLimited := by simpa using hpre 0 (by omega)
      have hpre1 : ∀ j, j < k → q (k0 + 1 + j) = .rateLimited := by
        intro j hj
        have := hpre (j + 1) (by omega)
        simpa [Nat.add_assoc, Nat.add_comm 1 j] using this
      have hk : k < l := by omega
      have ihspec := ih l (k0 + 1) hk hpre1
      have harg : k0 + 1 + k = k0 + (k + 1) := by omega
      constructor
      · intro v hv
        have := ihspec.1 v (by rw [harg]; exact hv)
        simp [retryGo, h0, this, List.replicate_succ]
      · intro e he
        have := ihspec.2 e (by rw [harg]; exact he)
        simp [retryGo, h0, this, List.replicate_succ]

/-- C8: `fetchWithRetry` invokes the wrapped query and on a 429 sleeps the
fixed backoff then retries: an always-rate-limited query is invoked
exactly `MAX_RETRIES` times (one backoff sleep per 429) and then fails
with the max-retries error carrying the attempt count; a non-429 error
propagates at its first occurrence with no further invocations; a
successful attempt returns the query's result unchanged. -/
theorem fetchWithRetry_spec {α : Type} (q : Nat → FetchOutcome α) :
    ((∀ k, q k = .rateLimited) →
      fetchWithRetry q =
        (.retryExhausted MAX_RETRIES, MAX_RETRIES, List.replicate MAX_RETRIES BACKOFF_TIME)) ∧
    (∀ k v, k < MAX_RETRIES → (∀ j, j < k → q j = .rateLimited) → q k = .ok v →
      fetchWithRetry q = (.ok v, k + 1, List.replicate k BACKOFF_TIME)) ∧
    (∀ k e, k < MAX_RETRIES → (∀ j, j < k → q j = .rateLimited) → q k = .otherError e →
      fetchWithRetry q = (.otherError e, k + 1, List.replicate k BACKOFF_TIME)) := by
  refine ⟨fun h => retryGo_rateAll q MAX_RETRIES 0 (fun j _ => by simpa using h j), ?_, ?_⟩
  · intro k v hk hpre hq
    exact (retryGo_stops q k MAX_RETRIES 0 hk (fun j hj => by simpa using hpre j hj)).1 v
      (by simpa using hq)
  · intro k e hk hpre hq
    exact (retryGo_stops q k MAX_RETRIES 0 hk (fun j hj => by simpa using hpre j hj)).2 e
      (by simpa using hq)

/-- Witness for `fetchWithRetry_spec` at three concrete queries: one that
always rate limits, one that succeeds on the fourth attempt, and one that
fails immediately with a non-429 error. -/
theorem fetchWithRetry_spec_witness :
    fetchWithRetry (fun _ => (FetchOutcome.rateLimited : FetchOutcome Nat)) =
      (.retryExhausted MAX_RETRIES, MAX_RETRIES, List.replicate MAX_RETRIES BACKOFF_TIME) ∧
    fetchWithRetry (fun k => if k < 3 then .rateLimited else (.ok 42 : FetchOutcome Nat)) =
      (.ok 42, 4, List.replicate 3 BACKOFF_TIME) ∧
    fetchWithRetry (fun k => if k = 0 then (.otherError 7 : FetchOutcome Nat) else .rateLimited) =
      (.otherError 7, 1, []) := by
  refine ⟨(fetchWithRetry_spec _).1 (fun _ => rfl), ?_, ?_⟩
  · have h := (fetchWithRetry_spec
      (fun k => if k < 3 then .rateLimited else (.ok 42 : FetchOutcome Nat))).2.1 3 42
      (by decide) (fun j hj => by simp [hj]) (by simp)
    simpa using h
  · have h := (fetchWithRetry_spec
      (fun k => if k = 0 then (.otherError 7 : FetchOutcome Nat) else .rateLimited)).2.2 0 7
      (by decide) (fun j hj => by omega) (by simp)
    simpa using h

/-- A key appearing among the truthy values of a field is nonempty. -/
theorem mem_truthyField_ne {g : UserRec → Option String} {users : List UserRec} {a : String}
    (h : a ∈ truthyField g users) : a ≠ "" := by
  unfold truthyField at h
  rw [List.mem_filterMap] at h
  obtain ⟨u, _, hu⟩ := h
  revert hu
  cases g u with
  | none => intro hu; cases hu
  | some b =>
    by_cases hb : b = ""
    · simp [hb]
    · intro hu
      simp only [bne_iff_ne, ne_eq, hb, not_false_eq_true, if_true, Option.some.injEq] at hu
      subst hu
      exact hb

/-- For a nonempty key, the count of the scan's key list equals the number
of records holding exactly that field value. -/
theorem truthyField_count (g : UserRec → Option String) (users : List UserRec) (a : String)
    (ha : a ≠ "") :
    (truthyField g users).count a = (users.filter fun u => g u == some a).length := by
  induction users with
  | nil => rfl
  | cons u us ih =>
    unfold truthyField at ih ⊢
    rw [List.filterMap_cons, List.filter_cons]
    simp only [bne_iff_ne, ne_eq, ite_not] at ih ⊢
    cases hg : g u with
    | none => simpa [hg] using ih
    | some b =>
      by_cases hb : b = ""
      · have hne : ¬("" = a) := fun hh => ha hh.symm
        subst hb
        simp [hg, hne, ih]
      · by_cases hab : b = a
        · subst hab
          simp [hg, hb, List.count_cons, ih]
        · have hba : (some b == some a) = false := by simpa using hab
          simp [hg, hb, hba, List.count_cons, ih, Ne.symm hab, hab]

/-- Membership in a duplicate list is exactly: nonempty key held by at
least two records. -/
theorem dupsOf_mem (g : UserRec → Option String) (users : List UserRec) (a : String) :
    a ∈ dupsOf g users ↔
      a ≠ "" ∧ 2 ≤ (users.filter fun u => g u == some a).length := by
  unfold dupsOf
  rw [List.mem_filter, List.mem_dedup]
  constructor
  · rintro ⟨hmem, hcnt⟩
    have ha : a ≠ "" := mem_truthyField_ne hmem
    refine ⟨ha, ?_⟩
    rw [← truthyField_count g users a ha]
    simpa using hcnt
  · rintro ⟨ha, hlen⟩
    have hcnt : 2 ≤ (truthyField g users).count a := by
      rw [truthyField_count g users a ha]; exact hlen
    refine ⟨?_, by simpa using hcnt⟩
    have : 0 < (truthyField g users).count a := by omega
    exact List.count_pos_iff.mp this

/-- C10: the duplicate scan of main reports exactly the violations:
`duplicateWalletAddresses` holds precisely the nonempty wallet addresses
held by more than one record and `duplicateTelegramIds` precisely the
nonempty telegram ids held by more than one record.  The scan is a pure
computation over the already-loaded records: the corresponding region of
main contains no store write, merge or deletion, which is why it is
embedded as a function with no store-operation output. -/
theorem duplicateScan_exact (users : List UserRec) (a : String) :
    (a ∈ duplicateWalletAddresses users ↔
      a ≠ "" ∧ 2 ≤ (users.filter fun u => u.walletAddress == some a).length) ∧
    (a ∈ duplicateTelegramIds users ↔
      a ≠ "" ∧ 2 ≤ (users.filter fun u => u.telegramId == some a).length) :=
  ⟨dupsOf_mem (fun u => u.walletAddress) users a, dupsOf_mem (fun u => u.telegramId) users a⟩

/-- `tagCount` distributes over append. -/
theorem tagCount_append (t : String) (xs ys : List JsVal) :
    tagCount t (xs ++ ys) = tagCount t xs + tagCount t ys := by
  simp [tagCount, List.filter_append]

/-- Processing one document is processing its (possibly empty) entry
list. -/
theorem countDoc_eq (t : StakeTypes) (d : StakeDoc) :
    countDoc t d = (stakeEntries d).foldl countEntry t := by
  unfold countDoc stakeEntries
  cases d.extra with
  | none => rfl
  | some e =>
    by_cases ht : e.truthy
    · simp only [ht, if_true]
      cases e.asArr with
      | none => rfl
      | some xs =>
        by_cases hl : xs.length = 2
        · simp only [hl, if_true]
          cases (xs.getD 1 .vnull).asArr with
          | none => rfl
          | some staked => rfl
        · simp [hl]
    · simp [ht]

/-- The entry loop of the aggregator: every entry bumps the total, the
category counters count the entries with the matching tag. -/
theorem foldl_countEntry (xs : List JsVal) (t : StakeTypes) :
    xs.foldl countEntry t =
      { total := t.total + xs.length
        sivilian := t.sivilian + tagCount "0" xs
        general := t.general + tagCount "1" xs
        officer := t.officer + tagCount "2" xs
        clown := t.clown + tagCount "3" xs
        engineer := t.engineer + tagCount "4" xs
        legendary := t.legendary + tagCount "5" xs } := by
  induction xs generalizing t with
  | nil => simp [tagCount]
  | cons x xs ih =>
    rw [List.foldl_cons, ih]
    have hstep : ∀ tag : String, tagCount tag (x :: xs) =
        (if jsStrEq x tag then 1 else 0) + tagCount tag xs := by
      intro tag
      by_cases h : jsStrEq x tag
      · simp [tagCount, List.filter_cons, h, Nat.add_comm]
      · simp [tagCount, List.filter_cons, h]
    simp only [hstep]
    unfold countEntry
    cases x with
    | vnum q => simp [jsStrEq, StakeTypes.mk.injEq]; omega
    | varr l => simp [jsStrEq, StakeTypes.mk.injEq]; omega
    | vnull => simp [jsStrEq, StakeTypes.mk.injEq]; omega
    | vstr s =>
      by_cases h0 : s = "0"
      · subst h0; simp [jsStrEq, StakeTypes.mk.injEq]; omega
      · by_cases h1 : s = "1"
        · subst h1; simp [jsStrEq, StakeTypes.mk.injEq]; omega
        · by_cases h2 : s = "2"
          · subst h2; simp [jsStrEq, StakeTypes.mk.injEq]; omega
          · by_cases h3 : s = "3"
            · subst h3; simp [jsStrEq, StakeTypes.mk.injEq]; omega
            · by_cases h4 : s = "4"
              · subst h4; simp [jsStrEq, StakeTypes.mk.injEq]; omega
              · by_cases h5 : s = "5"
                · subst h5; simp [jsStrEq, StakeTypes.mk.injEq]; omega
                · simp [jsStrEq, h0, h1, h2, h3, h4, h5, StakeTypes.mk.injEq]; omega

/-- The whole scan, with an arbitrary starting accumulator. -/
theorem foldl_countDoc (docs : List StakeDoc) : ∀ t : StakeTypes,
    docs.foldl countDoc t =
      { total := t.total + (allEntries docs).length
        sivilian := t.sivilian + tagCount "0" (allEntries docs)
        general := t.general + tagCount "1" (allEntries docs)
        officer := t.officer + tagCount "2" (allEntries docs)
        clown := t.clown + tagCount "3" (allEntries docs)
        engineer := t.engineer + tagCount "4" (allEntries docs)
        legendary := t.legendary + tagCount "5" (allEntries docs) } := by
  induction docs with
  | nil => intro t; simp [allEntries, tagCount]
  | cons d ds ih =>
    intro t
    rw [List.foldl_cons, countDoc_eq, foldl_countEntry, ih]
    have hall : allEntries (d :: ds) = stakeEntries d ++ allEntries ds := by
      simp [allEntries]
    rw [hall]
    simp [tagCount_append, List.length_append, StakeTypes.mk.injEq]
    omega

/-- C5, as it holds on the code: `countStakedSitizens` treats the second
element of the two-element `extra_nested_data` structure as a list of
per-NFT type tags, not per-category counts: the grand total counts every
entry of every well-shaped document (including entries with unknown
tags), and category i counts the entries strictly equal to the string tag
of i.  A document whose structure is malformed (not a truthy two-element
array with an array second element) contributes nothing, while all other
documents are still counted. -/
theorem countStakedSitizens_entrywise (docs : List StakeDoc) :
    countStakedSitizens docs =
      { total := (allEntries docs).length
        sivilian := tagCount "0" (allEntries docs)
        general := tagCount "1" (allEntries docs)
        officer := tagCount "2" (allEntries docs)
        clown := tagCount "3" (allEntries docs)
        engineer := tagCount "4" (allEntries docs)
        legendary := tagCount "5" (allEntries docs) } := by
  unfold countStakedSitizens
  rw [foldl_countDoc]
  simp

/-- C5 counterexample: for a record whose staked list is `["3"]`, the code
counts one entry tagged "3" (one clown, grand total 1), while the claim's
reference definition parses the entry at index 0 as the count 3 for
category 0 (three sivilians, grand total 3). -/
theorem countStakedSitizens_ne_claim :
    (countStakedSitizens
      [{ walletAddress := some "x",
         extra := some (.varr [.varr [], .varr [.vstr "3"]]) }]).clown = 1 ∧
    (countStakedSitizens
      [{ walletAddress := some "x",
         extra := some (.varr [.varr [], .varr [.vstr "3"]]) }]).sivilian = 0 ∧
    (countStakedSitizens
      [{ walletAddress := some "x",
         extra := some (.varr [.varr [], .varr [.vstr "3"]]) }]).total = 1 ∧
    (claimStakeTotals
      [{ walletAddress := some "x",
         extra := some (.varr [.varr [], .varr [.vstr "3"]]) }]).sivilian = 3 ∧
    (claimStakeTotals
      [{ walletAddress := some "x",
         extra := some (.varr [.varr [], .varr [.vstr "3"]]) }]).total = 3 := by
  refine ⟨rfl, rfl, rfl, ?_, ?_⟩ <;> rfl

/-- A successful draw returns a number outside the used set at entry and
extends the used set with exactly it (retries only move the stream index
and the upper bound). -/
theorem drawRef_spec (rand : Nat → Rat) :
    ∀ fuel st attemptCount r st1,
      drawRef rand fuel st attemptCount = some (r, st1) →
      r ∉ st.used ∧ st1.used = r :: st.used := by
  intro fuel
  induction fuel with
  | zero => intro st a r st1 h; cases h
  | succ fuel ih =>
    intro st a r st1 h
    unfold drawRef at h
    by_cases hmem : drawVal rand st ∈ st.used
    · rw [if_pos hmem] at h
      by_cases ha : a + 1 > 100
      · rw [if_pos ha] at h
        have h2 := ih _ _ r st1 h
        exact h2
      · rw [if_neg ha] at h
        have h2 := ih _ _ r st1 h
        exact h2
    · rw [if_neg hmem] at h
      simp only [Option.some.injEq, Prod.mk.injEq] at h
      obtain ⟨rfl, rfl⟩ := h
      exact ⟨hmem, rfl⟩

/-- The allocator's user loop: every pushed update targets a
falsy-refNumber record, its number is outside the entry used set, and the
numbers pushed in one run are pairwise distinct. -/
theorem genRefGo_spec (rand : Nat → Rat) (fuel : Nat) :
    ∀ (users : List UserRec) (st : GenSt) (ups : List (Nat × Int)),
      genRefGo rand fuel users st = some ups →
      (∀ p ∈ ups, ∃ u ∈ users, u.uid = p.1 ∧ refTruthy u.refNumber = false) ∧
      (∀ p ∈ ups, p.2 ∉ st.used) ∧
      ups.Pairwise (fun p q => p.2 ≠ q.2) := by
  intro users
  induction users with
  | nil =>
    intro st ups h
    obtain rfl : ([] : List (Nat × Int)) = ups := Option.some.inj h
    simp
  | cons u us ih =>
    intro st ups h
    unfold genRefGo at h
    by_cases hr : refTruthy u.refNumber
    · rw [if_pos hr] at h
      obtain ⟨h1, h2, h3⟩ := ih st ups h
      refine ⟨?_, h2, h3⟩
      intro p hp
      obtain ⟨v, hv, hvp⟩ := h1 p hp
      exact ⟨v, List.mem_cons_of_mem _ hv, hvp⟩
    · rw [if_neg hr] at h
      split at h
      · cases h
      · rename_i r st1 hd
        split at h
        · cases h
        · rename_i ups1 hg
          obtain rfl : (u.uid, r) :: ups1 = ups := Option.some.inj h
          obtain ⟨hfresh, hused⟩ := drawRef_spec rand fuel st 0 r st1 hd
          obtain ⟨h1, h2, h3⟩ := ih st1 ups1 hg
          refine ⟨?_, ?_, ?_⟩
          · intro p hp
            rcases List.mem_cons.mp hp with rfl | hp1
            · exact ⟨u, List.mem_cons_self u us, rfl, by simpa using hr⟩
            · obtain ⟨v, hv, hvp⟩ := h1 p hp1
              exact ⟨v, List.mem_cons_of_mem _ hv, hvp⟩
          · intro p hp
            rcases List.mem_cons.mp hp with rfl | hp1
            · exact hfresh
            · have hne := h2 p hp1
              rw [hused] at hne
              exact fun hmem => hne (List.mem_cons_of_mem _ hmem)
          · refine List.pairwise_cons.mpr ⟨?_, h3⟩
            intro q hq
            have hne := h2 q hq
            rw [hused] at hne
            intro hEq
            exact hne (hEq ▸ List.mem_cons_self _ _)

/-- C7 as it holds on the code: every refNumber assigned by
`generateRefNumbers` targets a record whose stored refNumber is falsy, is
absent from the set of all previously assigned numbers and from the
numbers assigned earlier in the same run (the in-memory used set is
extended immediately on assignment), so no assigned number ever collides
with a stored or just-assigned one.  The only divergence from the claim
is that a record can "already have" the falsy refNumber 0, which the
allocator overwrites (see the counterexample). -/
theorem genRefNumbers_fresh (rand : Nat → Rat) (fuel : Nat) (existing : List Int)
    (users : List UserRec) (ups : List (Nat × Int))
    (h : genRefNumbers rand fuel existing users = some ups)
    (hcov : ∀ u ∈ users, ∀ r : Int, u.refNumber = some r → r ∈ existing) :
    (∀ p ∈ ups, ∃ u ∈ users, u.uid = p.1 ∧ refTruthy u.refNumber = false) ∧
    (∀ p ∈ ups, p.2 ∉ existing) ∧
    ups.Pairwise (fun p q => p.2 ≠ q.2) ∧
    (∀ p ∈ ups, ∀ u ∈ users, ∀ r : Int, u.refNumber = some r → r ≠ p.2) := by
  obtain ⟨h1, h2, h3⟩ := genRefGo_spec rand fuel users _ ups h
  refine ⟨h1, h2, h3, ?_⟩
  intro p hp u hu r hr hEq
  exact h2 p hp (hEq ▸ hcov u hu r hr)

/-- Witness for `genRefNumbers_fresh`: a run over one record lacking a
refNumber and one holding 5, with used set {5} and a constant random
stream; the single assignment is (uid 1, 20000). -/
theorem genRefNumbers_fresh_witness :
    (∀ p ∈ [((1 : Nat), (20000 : Int))],
      ∃ u ∈ [({ uid := 1, walletAddress := some "a", refNumber := none, nft := .missing,
                nftName := none, walletId := none, nftData := none, telegramId := none,
                twitterId := none, population := 0 } : UserRec),
             ({ uid := 2, walletAddress := some "b", refNumber := some 5, nft := .missing,
                nftName := none, walletId := none, nftData := none, telegramId := none,
                twitterId := none, population := 0 } : UserRec)],
        u.uid = p.1 ∧ refTruthy u.refNumber = false) ∧
    (∀ p ∈ [((1 : Nat), (20000 : Int))], p.2 ∉ [(5 : Int)]) ∧
    List.Pairwise (fun p q => p.2 ≠ q.2) [((1 : Nat), (20000 : Int))] ∧
    (∀ p ∈ [((1 : Nat), (20000 : Int))],
      ∀ u ∈ [({ uid := 1, walletAddress := some "a", refNumber := none, nft := .missing,
                nftName := none, walletId := none, nftData := none, telegramId := none,
                twitterId := none, population := 0 } : UserRec),
             ({ uid := 2, walletAddress := some "b", refNumber := some 5, nft := .missing,
                nftName := none, walletId := none, nftData := none, telegramId := none,
                twitterId := none, population := 0 } : UserRec)],
        ∀ r : Int, u.refNumber = some r → r ≠ p.2) := by
  refine genRefNumbers_fresh (fun _ => 0) 10 [5] _ _ (by decide) ?_
  intro u hu r hr
  rcases List.mem_cons.mp hu with rfl | hu1
  · cases hr
  · rcases List.mem_cons.mp hu1 with rfl | hu2
    · cases hr
      exact List.mem_cons_self _ _
    · cases hu2

/-- C7 counterexample: a record whose stored refNumber is the number 0
already has a refNumber, yet `generateRefNumbers` (whose guard is the JS
truthiness test `!user.refNumber`) generates and writes a new one for it. -/
theorem genRefNumbers_overwrites_zero :
    ({ uid := 7, walletAddress := some "a", refNumber := some 0, nft := .missing,
       nftName := none, walletId := none, nftData := none, telegramId := none,
       twitterId := none, population := 0 } : UserRec).refNumber = some 0 ∧
    genRefNumbers (fun _ => 0) 5 []
      [{ uid := 7, walletAddress := some "a", refNumber := some 0, nft := .missing,
         nftName := none, walletId := none, nftData := none, telegramId := none,
         twitterId := none, population := 0 }] = some [(7, 20000)] := by
  exact ⟨rfl, by decide⟩

/-- A rejection of the fetch phase at some user, with every earlier valid
user's fetch fulfilled, rejects the whole fetch phase. -/
theorem phase1AllE_cons (chain : String → Except ChainErr (Option Nft)) (u : UserRec)
    (us : List UserRec) :
    phase1AllE chain (u :: us) =
      match phase1OneE chain u with
      | .error e => .error e
      | .ok r =>
        match phase1AllE chain us with
        | .error e => .error e
        | .ok rs => .ok ((u, r) :: rs) := rfl

/-- A rejection of the fetch phase at some user, with every earlier valid
user's fetch fulfilled, rejects the whole fetch phase. -/
theorem phase1AllE_error (chain : String → Except ChainErr (Option Nft)) (e : ChainErr) :
    ∀ (l1 : List UserRec) (u : UserRec) (l2 : List UserRec),
      (∀ v ∈ l1, ∃ r, phase1OneE chain v = .ok r) →
      phase1OneE chain u = .error e →
      phase1AllE chain (l1 ++ u :: l2) = .error e := by
  intro l1
  induction l1 with
  | nil =>
    intro u l2 _ hu
    simp only [List.nil_append, phase1AllE_cons, hu]
  | cons v l1 ih =>
    intro u l2 hok hu
    obtain ⟨r, hr⟩ := hok v (List.mem_cons_self v l1)
    have htail := ih u l2 (fun w hw => hok w (List.mem_cons_of_mem _ hw)) hu
    simp only [List.cons_append, phase1AllE_cons, hr, htail]

/-- C2, as it holds on the code.  Balance aggregator: a failed
wallet-object fetch is caught and treated as balance 0, and every record
still gets its report row (the batch continues).  Updater: the per-record
fetch lambda of `updateNftFieldsAndWalletIds` has no try/catch, so a chain
failure (retry exhaustion or any other error) on any record whose fetch is
actually performed rejects the whole `Promise.all` and the run aborts,
instead of the record being treated as "no NFT found". -/
theorem faultIsolation_balances_not_updater :
    (∀ (oracle : String → Except Unit (Option Rat)) (users : List UserRec),
      (mkRows oracle users).length = users.length ∧
      ∀ u ∈ users, ∀ w, u.walletId = some w → oracle w = .error () → balOf oracle u = 0) ∧
    (∀ (chain : String → Except ChainErr (Option Nft)) (users l1 l2 : List UserRec)
        (u : UserRec) (e : ChainErr),
      users.filter validUser = l1 ++ u :: l2 →
      (∀ v ∈ l1, ∃ r, phase1OneE chain v = .ok r) →
      phase1OneE chain u = .error e →
      runUpdaterE chain users = .error e) := by
  constructor
  · intro oracle users
    constructor
    · simp [mkRows]
    · intro u hu w hw herr
      unfold balOf
      by_cases ht : truthyS u.walletId
      · rw [if_pos ht]
        unfold fetchSityBalance
        rw [hw] at ht ⊢
        simp only [Option.getD_some]
        rw [herr]
      · rw [if_neg ht]
  · intro chain users l1 l2 u e hsplit hok hu
    unfold runUpdaterE
    rw [hsplit, phase1AllE_error chain e l1 u l2 hok hu]
    rfl

/-- Witness for `faultIsolation_balances_not_updater`: a one-user store
whose wallet fetch fails gives a single zero row, and a one-user store
whose chain fetch fails aborts the updater with that error. -/
theorem faultIsolation_witness :
    ((mkRows (fun _ => .error ())
        [{ uid := 1, walletAddress := some "a", refNumber := none, nft := .missing,
           nftName := none, walletId := some "w", nftData := none, telegramId := none,
           twitterId := none, population := 0 }]).length = 1 ∧
      balOf (fun _ => .error ())
        ({ uid := 1, walletAddress := some "a", refNumber := none, nft := .missing,
           nftName := none, walletId := some "w", nftData := none, telegramId := none,
           twitterId := none, population := 0 }) = 0) ∧
    runUpdaterE (fun _ => .error (.retryExhausted MAX_RETRIES))
      [{ uid := 1, walletAddress := some "a", refNumber := none, nft := .missing,
         nftName := none, walletId := none, nftData := none, telegramId := none,
         twitterId := none, population := 0 }] = .error (.retryExhausted MAX_RETRIES) := by
  constructor
  · have H := faultIsolation_balances_not_updater.1 (fun _ => .error ())
      [{ uid := 1, walletAddress := some "a", refNumber := none, nft := .missing,
         nftName := none, walletId := some "w", nftData := none, telegramId := none,
         twitterId := none, population := 0 }]
    exact ⟨H.1, H.2 _ (List.mem_cons_self _ _) "w" rfl rfl⟩
  · exact faultIsolation_balances_not_updater.2 (fun _ => .error (.retryExhausted MAX_RETRIES))
      _ [] []
      ({ uid := 1, walletAddress := some "a", refNumber := none, nft := .missing,
         nftName := none, walletId := none, nftData := none, telegramId := none,
         twitterId := none, population := 0 })
      (.retryExhausted MAX_RETRIES) (by decide) (by simp) rfl

/-- C2 counterexample: the claim says a record whose chain query fails
with retry exhaustion is treated as "no NFT found" and the run continues;
on the code the updater run rejects with the error instead of completing
with a result. -/
theorem updater_aborts_on_chain_error :
    runUpdaterE (fun _ => .error (.retryExhausted MAX_RETRIES))
      [{ uid := 1, walletAddress := some "a", refNumber := none, nft := .missing,
         nftName := none, walletId := none, nftData := none, telegramId := none,
         twitterId := none, population := 0 }] = .error (.retryExhausted MAX_RETRIES) ∧
    ∀ out : UpdOut,
      runUpdaterE (fun _ => .error (.retryExhausted MAX_RETRIES))
        [{ uid := 1, walletAddress := some "a", refNumber := none, nft := .missing,
           nftName := none, walletId := none, nftData := none, telegramId := none,
           twitterId := none, population := 0 }] ≠ .ok out := by
  refine ⟨rfl, ?_⟩
  intro out h
  have he : runUpdaterE (fun _ => .error (.retryExhausted MAX_RETRIES))
      [{ uid := 1, walletAddress := some "a", refNumber := none, nft := .missing,
         nftName := none, walletId := none, nftData := none, telegramId := none,
         twitterId := none, population := 0 }] = .error (.retryExhausted MAX_RETRIES) := rfl
  rw [he] at h
  exact Except.noConfusion h

/-- Unfolding `decideRec` at a missing fetch result. -/
theorem decideRec_none (u : UserRec) (force : Bool) :
    decideRec u none force =
      if u.nft.truthy && truthyS u.walletId && u.nftData.isSome && !force then .skip
      else .del := rfl

/-- Unfolding `decideRec` at a fetched snapshot. -/
theorem decideRec_some (u : UserRec) (n : Nft) (force : Bool) :
    decideRec u (some n) force =
      if !truthyS n.wallet then .noWallet
      else if wIdCondOf u (n.wallet.getD "") || nftCondOf u n || dataCondOf u n force then
        .write (buildDoc u n force)
      else .skip := rfl

/-- A write decision only arises from a fetched snapshot, and the pushed
document is exactly the one assembled by the three checks. -/
theorem decideRec_write_shape (u : UserRec) (fet : Option Nft) (force : Bool) (doc : UpdateDoc)
    (h : decideRec u fet force = .write doc) :
    ∃ n : Nft, fet = some n ∧ doc = buildDoc u n force := by
  cases fet with
  | none =>
    rw [decideRec_none] at h
    by_cases hc : u.nft.truthy && truthyS u.walletId && u.nftData.isSome && !force
    · rw [if_pos hc] at h; cases h
    · rw [if_neg hc] at h; cases h
  | some n =>
    rw [decideRec_some] at h
    by_cases hw : !truthyS n.wallet
    · rw [if_pos hw] at h; cases h
    · rw [if_neg hw] at h
      by_cases hc : wIdCondOf u (n.wallet.getD "") || nftCondOf u n || dataCondOf u n force
      · rw [if_pos hc] at h
        exact ⟨n, rfl, (Decision.write.inj h).symm⟩
      · rw [if_neg hc] at h; cases h

/-- The fetch-phase result is either the chain's answer for the wallet
address or the skipped-call `null`. -/
theorem phase1One_fst (f : String → Option Nft) (u : UserRec) :
    (phase1One f u).1 = f (waddr u) ∨ (phase1One f u).1 = none := by
  unfold phase1One
  by_cases b1 : u.nft.truthy && u.nft.isObj
  · rw [if_pos b1]; exact Or.inl rfl
  · rw [if_neg b1]
    by_cases b2 : fastPath u
    · rw [if_pos b2]; exact Or.inr rfl
    · rw [if_neg b2]; exact Or.inl rfl

/-- C6: every update document in the batch that sets the `nft` field also
sets `nftData` in the same document, and both come from the same freshly
fetched snapshot: `nft` is set to its objectId and `nftData` to the whole
snapshot, so after any write `nftData` is never stale relative to `nft`. -/
theorem updates_set_nftData_with_nft (f : String → Option Nft) (users : List UserRec)
    (uid : Nat) (doc : UpdateDoc)
    (hmem : (uid, doc) ∈ updatesOf f users) (hnft : doc.nft.isSome = true) :
    ∃ u ∈ users, u.uid = uid ∧ ∃ n : Nft,
      f (waddr u) = some n ∧ doc.nft = some n.objectId ∧ doc.nftData = some n := by
  unfold updatesOf at hmem
  rw [List.mem_filterMap] at hmem
  obtain ⟨u, hu, hdec⟩ := hmem
  have humem : u ∈ users := (List.mem_filter.mp hu).1
  cases hd : processUser f u with
  | write d =>
    simp only [hd] at hdec
    obtain ⟨huid, hdoc⟩ : u.uid = uid ∧ d = doc := by
      have := Option.some.inj hdec
      exact ⟨congrArg Prod.fst this, congrArg Prod.snd this⟩
    unfold processUser at hd
    obtain ⟨n, hfet, hbuild⟩ := decideRec_write_shape u _ _ d hd
    have hf : f (waddr u) = some n := by
      rcases phase1One_fst f u with hcase | hcase
      · rw [← hcase]; exact hfet
      · rw [hcase] at hfet; cases hfet
    refine ⟨u, humem, huid, n, hf, ?_, ?_⟩
    · subst hdoc hbuild
      unfold buildDoc at hnft ⊢
      by_cases hnc : nftCondOf u n
      · simp [hnc]
      · simp [hnc] at hnft
    · subst hdoc hbuild
      unfold buildDoc at hnft ⊢
      by_cases hnc : nftCondOf u n
      · have hdc : dataCondOf u n (phase1One f u).2 = true := by
          unfold dataCondOf
          simp [hnc]
        simp [hdc]
      · simp [hnc] at hnft
  | skip => simp only [hd] at hdec; cases hdec
  | del => simp only [hd] at hdec; cases hdec
  | noWallet => simp only [hd] at hdec; cases hdec

/-- Witness for `updates_set_nftData_with_nft`: a concrete run whose single
update document sets `nft`, exhibiting the fetched snapshot. -/
theorem updates_set_nftData_witness :
    ∃ u ∈ [({ uid := 1, walletAddress := some "a", refNumber := none, nft := .missing,
              nftName := none, walletId := none, nftData := none, telegramId := none,
              twitterId := none, population := 0 } : UserRec)],
      u.uid = 1 ∧ ∃ n : Nft,
        (fun _ => some ({ objectId := some "oid", name := some "Nm", wallet := some "w1" } : Nft))
            (waddr u) = some n ∧
        ({ walletId := some "w1", nftName := some "Nm", nft := some (some "oid"),
           nftData := some { objectId := some "oid", name := some "Nm", wallet := some "w1" } }
          : UpdateDoc).nft = some n.objectId ∧
        ({ walletId := some "w1", nftName := some "Nm", nft := some (some "oid"),
           nftData := some { objectId := some "oid", name := some "Nm", wallet := some "w1" } }
          : UpdateDoc).nftData = some n :=
  updates_set_nftData_with_nft
    (fun _ => some { objectId := some "oid", name := some "Nm", wallet := some "w1" })
    [{ uid := 1, walletAddress := some "a", refNumber := none, nft := .missing,
       nftName := none, walletId := none, nftData := none, telegramId := none,
       twitterId := none, population := 0 }]
    1
    { walletId := some "w1", nftName := some "Nm", nft := some (some "oid"),
      nftData := some { objectId := some "oid", name := some "Nm", wallet := some "w1" } }
    (by decide) rfl

/-- The store operations issued during the decision loop are exactly one
`deleteOne` per record decided for deletion, in loop order. -/
theorem storeOps_loopPart (f : String → Option Nft) :
    ∀ l : List UserRec,
      storeOpsOf (l.flatMap fun u =>
        UpdEvent.decided u.uid ::
          (match processUser f u with
           | .del => [UpdEvent.store (StoreOp.deleteOne u.uid)]
           | _ => [])) =
      (l.filterMap fun u =>
        match processUser f u with
        | .del => some u.uid
        | _ => none).map StoreOp.deleteOne := by
  intro l
  induction l with
  | nil => rfl
  | cons u l ih =>
    rw [List.flatMap_cons, List.filterMap_cons]
    unfold storeOpsOf at ih ⊢
    rw [List.filterMap_append]
    cases hd : processUser f u with
    | del => simp only [hd, List.filterMap_cons, List.map_cons]; simpa using ih
    | skip => simp only [hd, List.filterMap_cons]; simpa using ih
    | noWallet => simp only [hd, List.filterMap_cons]; simpa using ih
    | write doc => simp only [hd, List.filterMap_cons]; simpa using ih

/-- C9, as it holds on the code: the decision loop of the Updater issues
one immediate `deleteOne` per record it decides to remove, interleaved
with the decisions, while every field update of the run is accumulated
and flushed as a single `bulkWrite` after the last decision (and no store
operation other than these ever occurs). -/
theorem updater_batches_updates_not_deletes (f : String → Option Nft) (users : List UserRec) :
    ∃ loopPart : List UpdEvent,
      eventsOf f users = loopPart ++
        (if updatesOf f users = [] then []
         else [UpdEvent.store (StoreOp.bulkWrite (updatesOf f users))]) ∧
      storeOpsOf loopPart = (deletedOf f users).map StoreOp.deleteOne ∧
      (∀ e ∈ loopPart, (∃ uid, e = UpdEvent.decided uid) ∨
        ∃ uid, e = UpdEvent.store (StoreOp.deleteOne uid) ∧ uid ∈ deletedOf f users) := by
  refine ⟨(users.filter validUser).flatMap fun u =>
    UpdEvent.decided u.uid ::
      (match processUser f u with
       | .del => [UpdEvent.store (StoreOp.deleteOne u.uid)]
       | _ => []), rfl, storeOps_loopPart f (users.filter validUser), ?_⟩
  intro e he
  rw [List.mem_flatMap] at he
  obtain ⟨u, hu, hme⟩ := he
  rcases List.mem_cons.mp hme with rfl | hme1
  · exact Or.inl ⟨u.uid, rfl⟩
  · cases hd : processUser f u with
    | del =>
      rw [hd] at hme1
      rcases List.mem_cons.mp hme1 with rfl | hme2
      · refine Or.inr ⟨u.uid, rfl, ?_⟩
        unfold deletedOf
        rw [List.mem_filterMap]
        exact ⟨u, hu, by rw [hd]⟩
      · cases hme2
    | skip => rw [hd] at hme1; cases hme1
    | noWallet => rw [hd] at hme1; cases hme1
    | write doc => rw [hd] at hme1; cases hme1

/-- Witness for `updater_batches_updates_not_deletes`, at a run that both
deletes a record and updates another. -/
theorem updater_batches_witness :
    ∃ loopPart : List UpdEvent,
      eventsOf
        (fun w => if w = "a" then none
          else some { objectId := some "oid", name := none, wallet := some "w1" })
        [{ uid := 1, walletAddress := some "a", refNumber := none, nft := .missing,
           nftName := none, walletId := none, nftData := none, telegramId := none,
           twitterId := none, population := 0 },
         { uid := 2, walletAddress := some "b", refNumber := none, nft := .missing,
           nftName := none, walletId := none, nftData := none, telegramId := none,
           twitterId := none, population := 0 }] = loopPart ++
        (if updatesOf
            (fun w => if w = "a" then none
              else some { objectId := some "oid", name := none, wallet := some "w1" })
            [{ uid := 1, walletAddress := some "a", refNumber := none, nft := .missing,
               nftName := none, walletId := none, nftData := none, telegramId := none,
               twitterId := none, population := 0 },
             { uid := 2, walletAddress := some "b", refNumber := none, nft := .missing,
               nftName := none, walletId := none, nftData := none, telegramId := none,
               twitterId := none, population := 0 }] = [] then []
         else [UpdEvent.store (StoreOp.bulkWrite (updatesOf
            (fun w => if w = "a" then none
              else some { objectId := some "oid", name := none, wallet := some "w1" })
            [{ uid := 1, walletAddress := some "a", refNumber := none, nft := .missing,
               nftName := none, walletId := none, nftData := none, telegramId := none,
               twitterId := none, population := 0 },
             { uid := 2, walletAddress := some "b", refNumber := none, nft := .missing,
               nftName := none, walletId := none, nftData := none, telegramId := none,
               twitterId := none, population := 0 }]))]) ∧
      storeOpsOf loopPart = (deletedOf
        (fun w => if w = "a" then none
          else some { objectId := some "oid", name := none, wallet := some "w1" })
        [{ uid := 1, walletAddress := some "a", refNumber := none, nft := .missing,
           nftName := none, walletId := none, nftData := none, telegramId := none,
           twitterId := none, population := 0 },
         { uid := 2, walletAddress := some "b", refNumber := none, nft := .missing,
           nftName := none, walletId := none, nftData := none, telegramId := none,
           twitterId := none, population := 0 }]).map StoreOp.deleteOne ∧
      (∀ e ∈ loopPart, (∃ uid, e = UpdEvent.decided uid) ∨
        ∃ uid, e = UpdEvent.store (StoreOp.deleteOne uid) ∧ uid ∈ deletedOf
          (fun w => if w = "a" then none
            else some { objectId := some "oid", name := none, wallet := some "w1" })
          [{ uid := 1, walletAddress := some "a", refNumber := none, nft := .missing,
             nftName := none, walletId := none, nftData := none, telegramId := none,
             twitterId := none, population := 0 },
           { uid := 2, walletAddress := some "b", refNumber := none, nft := .missing,
             nftName := none, walletId := none, nftData := none, telegramId := none,
             twitterId := none, population := 0 }]) :=
  updater_batches_updates_not_deletes
    (fun w => if w = "a" then none
      else some { objectId := some "oid", name := none, wallet := some "w1" })
    [{ uid := 1, walletAddress := some "a", refNumber := none, nft := .missing,
       nftName := none, walletId := none, nftData := none, telegramId := none,
       twitterId := none, population := 0 },
     { uid := 2, walletAddress := some "b", refNumber := none, nft := .missing,
       nftName := none, walletId := none, nftData := none, telegramId := none,
       twitterId := none, population := 0 }]

/-- C9 counterexample: with one record to delete and one to update, the
trace of the decision loop contains a store operation (the `deleteOne` of
record 1) issued before record 2's decision is computed, and the run
issues two store operations, with the deletion not part of the batched
`bulkWrite` — refuting both "no store write before all decisions" and
"a single batched write operation covering updates and deletions". -/
theorem updater_store_trace_counterexample :
    eventsOf
      (fun w => if w = "a" then none
        else some { objectId := some "oid", name := none, wallet := some "w1" })
      [{ uid := 1, walletAddress := some "a", refNumber := none, nft := .missing,
         nftName := none, walletId := none, nftData := none, telegramId := none,
         twitterId := none, population := 0 },
       { uid := 2, walletAddress := some "b", refNumber := none, nft := .missing,
         nftName := none, walletId := none, nftData := none, telegramId := none,
         twitterId := none, population := 0 }] =
      [UpdEvent.decided 1,
       UpdEvent.store (StoreOp.deleteOne 1),
       UpdEvent.decided 2,
       UpdEvent.store (StoreOp.bulkWrite
         [(2, { walletId := some "w1", nftName := some "Unnamed NFT", nft := some (some "oid"),
                nftData := some
                  { objectId := some "oid", name := none, wallet := some "w1" } })])] ∧
    (storeOpsOf (eventsOf
      (fun w => if w = "a" then none
        else some { objectId := some "oid", name := none, wallet := some "w1" })
      [{ uid := 1, walletAddress := some "a", refNumber := none, nft := .missing,
         nftName := none, walletId := none, nftData := none, telegramId := none,
         twitterId := none, population := 0 },
       { uid := 2, walletAddress := some "b", refNumber := none, nft := .missing,
         nftName := none, walletId := none, nftData := none, telegramId := none,
         twitterId := none, population := 0 }])).length = 2 := by
  constructor <;> decide

/-- A truthy non-object stored `nft` is a nonempty string. -/
theorem nftval_truthy_not_obj_isStr (v : NftVal) (ht : v.truthy = true) (ho : v.isObj = false) :
    v.isStr = true := by
  cases v <;> simp_all [NftVal.truthy, NftVal.isObj, NftVal.isStr]

/-- A string-typed stored `nft` is not object-typed. -/
theorem nftval_isStr_not_obj (v : NftVal) (h : v.isStr = true) : v.isObj = false := by
  cases v <;> simp_all [NftVal.isObj, NftVal.isStr]

/-- `applyDoc` never touches the wallet address. -/
theorem applyDoc_walletAddress (doc : UpdateDoc) (u : UserRec) :
    (applyDoc doc u).walletAddress = u.walletAddress := rfl

/-- A false `nftCondOf` means: truthy, strictly equal to the fetched id,
and not object-shaped. -/
theorem nftCondOf_false (u : UserRec) (n : Nft) (h : nftCondOf u n = false) :
    u.nft.truthy = true ∧ nftValEq u.nft n.objectId = true ∧ u.nft.isObj = false := by
  unfold nftCondOf at h
  simp only [Bool.or_eq_false_iff, Bool.not_eq_false'] at h
  exact ⟨h.1.1, h.1.2, h.2⟩

/-- A skip decision on a fetched snapshot implies the record was already
fully consistent: the fast-path guard holds for it. -/
theorem decideRec_skip_fastPath (u : UserRec) (n : Nft) (force : Bool)
    (h : decideRec u (some n) force = .skip) : fastPath u = true := by
  rw [decideRec_some] at h
  by_cases hw : !truthyS n.wallet
  · rw [if_pos hw] at h; cases h
  · rw [if_neg hw] at h
    by_cases hc : wIdCondOf u (n.wallet.getD "") || nftCondOf u n || dataCondOf u n force
    · rw [if_pos hc] at h; cases h
    · have hc2 : (wIdCondOf u (n.wallet.getD "") || nftCondOf u n || dataCondOf u n force)
          = false := Bool.eq_false_iff.mpr hc
      simp only [Bool.or_eq_false_iff] at hc2
      obtain ⟨⟨hwc, hnc⟩, hdc⟩ := hc2
      obtain ⟨ht, _, ho⟩ := nftCondOf_false u n hnc
      have hstr : u.nft.isStr = true := nftval_truthy_not_obj_isStr _ ht ho
      have hwid : u.walletId = some (n.wallet.getD "") := by
        have := hwc
        unfold wIdCondOf at this
        simpa using this
      have hwt : truthyS u.walletId = true := by
        rw [hwid]
        have hnw : truthyS n.wallet = true := by simpa using hw
        cases hnwv : n.wallet with
        | none => rw [hnwv] at hnw; cases hnw
        | some w =>
          rw [hnwv] at hnw
          simpa [truthyS] using hnw
      have hdata : u.nftData.isSome = true := by
        unfold dataCondOf at hdc
        simp only [Bool.or_eq_false_iff, Bool.not_eq_false'] at hdc
        exact hdc.1.1.1
      unfold fastPath
      rw [ht, hwt, hdata, hstr]
      rfl

/-- A write decision built from a well-formed snapshot leaves the record
on the fast path. -/
theorem buildDoc_fastPath (u : UserRec) (n : Nft) (force : Bool)
    (how : truthyS n.wallet = true) (hoo : truthyS n.objectId = true) :
    fastPath (applyDoc (buildDoc u n force) u) = true := by
  have hnft : (applyDoc (buildDoc u n force) u).nft.truthy = true ∧
      (applyDoc (buildDoc u n force) u).nft.isStr = true := by
    by_cases hnc : nftCondOf u n
    · have hfield : (applyDoc (buildDoc u n force) u).nft = setNftVal n.objectId := by
        unfold applyDoc buildDoc
        simp [hnc]
      rw [hfield]
      cases hoid : n.objectId with
      | none => rw [hoid] at hoo; cases hoo
      | some s =>
        rw [hoid] at hoo
        simp only [truthyS] at hoo
        exact ⟨by simpa [setNftVal, NftVal.truthy] using hoo, rfl⟩
    · have hfield : (applyDoc (buildDoc u n force) u).nft = u.nft := by
        unfold applyDoc buildDoc
        simp [hnc]
      obtain ⟨ht, _, ho⟩ := nftCondOf_false u n (Bool.eq_false_iff.mpr hnc)
      rw [hfield]
      exact ⟨ht, nftval_truthy_not_obj_isStr _ ht ho⟩
  have hwid : truthyS (applyDoc (buildDoc u n force) u).walletId = true := by
    have hnw : ∃ w, n.wallet = some w ∧ (w != "") = true := by
      cases hnwv : n.wallet with
      | none => rw [hnwv] at how; cases how
      | some w => exact ⟨w, rfl, by rw [hnwv] at how; simpa [truthyS] using how⟩
    obtain ⟨w, hw, hwne⟩ := hnw
    by_cases hwc : wIdCondOf u (n.wallet.getD "")
    · have hfield : (applyDoc (buildDoc u n force) u).walletId = some (n.wallet.getD "") := by
        unfold applyDoc buildDoc
        simp [hwc]
      rw [hfield, hw]
      simpa [truthyS] using hwne
    · have hfield : (applyDoc (buildDoc u n force) u).walletId = u.walletId := by
        unfold applyDoc buildDoc
        simp [hwc]
      have heq : u.walletId = some (n.wallet.getD "") := by
        have := Bool.eq_false_iff.mpr hwc
        unfold wIdCondOf at this
        simpa using this
      rw [hfield, heq, hw]
      simpa [truthyS] using hwne
  have hdata : (applyDoc (buildDoc u n force) u).nftData.isSome = true := by
    by_cases hdc : dataCondOf u n force
    · have hfield : (applyDoc (buildDoc u n force) u).nftData = some n := by
        unfold applyDoc buildDoc
        simp [hdc]
      rw [hfield]; rfl
    · have hpres : u.nftData.isSome = true := by
        have := Bool.eq_false_iff.mpr hdc
        unfold dataCondOf at this
        simp only [Bool.or_eq_false_iff, Bool.not_eq_false'] at this
        exact this.1.1.1
      have hfield : (applyDoc (buildDoc u n force) u).nftData = u.nftData := by
        unfold applyDoc buildDoc
        simp [hdc]
      rw [hfield]; exact hpres
  unfold fastPath
  rw [hnft.1, hnft.2, hwid, hdata]
  rfl

/-- A record already on the fast path is skipped: no chain call, no
decision other than skip. -/
theorem fastPath_skip (f : String → Option Nft) (u : UserRec) (hfp : fastPath u = true) :
    processUser f u = Decision.skip := by
  have hparts := hfp
  unfold fastPath at hparts
  simp only [Bool.and_eq_true] at hparts
  obtain ⟨⟨⟨ht, hw⟩, hd⟩, hs⟩ := hparts
  have hob : u.nft.isObj = false := nftval_isStr_not_obj _ hs
  unfold processUser phase1One
  rw [if_neg (show ¬((u.nft.truthy && u.nft.isObj) = true) by simp [ht, hob]),
    if_pos hfp]
  rw [decideRec_none,
    if_pos (show (u.nft.truthy && truthyS u.walletId && u.nftData.isSome && !false) = true
      by simp [ht, hw, hd])]

/-- Under a chain whose found snapshots are well formed, a valid record is
either deleted by the run or left/made fast-path consistent. -/
theorem userFate_good (f : String → Option Nft)
    (H : ∀ w n, f w = some n → truthyS n.objectId = true ∧ truthyS n.wallet = true)
    (u : UserRec) (hv : validUser u = true) :
    userFate f u = none ∨
      ∃ u2, userFate f u = some u2 ∧ validUser u2 = true ∧ fastPath u2 = true := by
  unfold userFate
  rw [if_pos hv]
  cases hd : processUser f u with
  | del => exact Or.inl rfl
  | skip =>
    refine Or.inr ⟨u, rfl, hv, ?_⟩
    unfold processUser at hd
    rcases hfst : (phase1One f u).1 with _ | n
    · rw [hfst] at hd
      rw [decideRec_none] at hd
      by_cases hc : u.nft.truthy && truthyS u.walletId && u.nftData.isSome && !(phase1One f u).2
      · -- the decision-loop skip: derive the fast path
        simp only [Bool.and_eq_true] at hc
        obtain ⟨⟨⟨ht, hw⟩, hdta⟩, hforce⟩ := hc
        -- phase1One returned no fetch: either the fast path held (done), or
        -- the third branch ran the chain; but a skip there needs the first
        -- three fast-path parts, which with a non-object nft forces isStr.
        by_cases hb1 : u.nft.truthy && u.nft.isObj
        · -- force-branch: fetched = f w and force = true, contradicting hforce
          have : (phase1One f u).2 = true := by
            unfold phase1One
            rw [if_pos hb1]
          rw [this] at hforce
          cases hforce
        · have hob : u.nft.isObj = false := by
            rcases Bool.and_eq_false_iff.mp (Bool.eq_false_iff.mpr hb1) with h | h
            · rw [ht] at h; cases h
            · exact h
          have hs : u.nft.isStr = true := nftval_truthy_not_obj_isStr _ ht hob
          unfold fastPath
          rw [ht, hw, hdta, hs]
          rfl
      · rw [if_neg hc] at hd; cases hd
    · rw [hfst] at hd
      exact decideRec_skip_fastPath u n _ hd
  | noWallet =>
    -- impossible under H: the fetched snapshot has a truthy wallet field
    exfalso
    unfold processUser at hd
    rcases hfst : (phase1One f u).1 with _ | n
    · rw [hfst, decideRec_none] at hd
      by_cases hc : u.nft.truthy && truthyS u.walletId && u.nftData.isSome && !(phase1One f u).2
      · rw [if_pos hc] at hd; cases hd
      · rw [if_neg hc] at hd; cases hd
    · rw [hfst, decideRec_some] at hd
      have hfn : f (waddr u) = some n := by
        rcases phase1One_fst f u with hcase | hcase
        · rw [← hcase]; exact hfst
        · rw [hcase] at hfst; cases hfst
      have hw : truthyS n.wallet = true := (H _ n hfn).2
      rw [hw] at hd
      simp only [Bool.not_true, Bool.false_eq_true, if_false] at hd
      by_cases hc : wIdCondOf u (n.wallet.getD "") || nftCondOf u n ||
          dataCondOf u n (phase1One f u).2
      · rw [if_pos hc] at hd; cases hd
      · rw [if_neg hc] at hd; cases hd
  | write doc =>
    refine Or.inr ⟨applyDoc doc u, rfl, ?_, ?_⟩
    · unfold validUser
      rw [applyDoc_walletAddress]
      exact hv
    · unfold processUser at hd
      obtain ⟨n, hfet, hbuild⟩ := decideRec_write_shape u _ _ doc hd
      have hfn : f (waddr u) = some n := by
        rcases phase1One_fst f u with hcase | hcase
        · rw [← hcase]; exact hfet
        · rw [hcase] at hfet; cases hfet
      obtain ⟨hoo, how⟩ := H _ n hfn
      rw [hbuild]
      exact buildDoc_fastPath u n _ how hoo

/-- `filterMap` of a pointwise-identity function is the identity. -/
theorem filterMap_self {α : Type} (g : α → Option α) :
    ∀ l : List α, (∀ a ∈ l, g a = some a) → l.filterMap g = l := by
  intro l
  induction l with
  | nil => intro _; rfl
  | cons a l ih =>
    intro h
    rw [List.filterMap_cons, h a (List.mem_cons_self a l),
      ih (fun b hb => h b (List.mem_cons_of_mem _ hb))]

/-- C1, amended with the snapshot well-formedness the code needs: if every
NFT snapshot the chain returns carries a truthy object id and a truthy
wallet field, then running `updateNftFieldsAndWalletIds` a second time
immediately after a first run (same chain answers) produces an empty
bulk-write batch and no deletions, leaves the store unchanged, and every
surviving record that has a wallet address takes the skip fast path
(scalar-string `nft`, truthy `walletId`, present `nftData`, decision
skip).  Records without a wallet address are outside the batch and are
untouched by both runs. -/
theorem updater_idempotent (f : String → Option Nft) (users : List UserRec)
    (H : ∀ w n, f w = some n → truthyS n.objectId = true ∧ truthyS n.wallet = true) :
    updatesOf f (newUsers f users) = [] ∧
    deletedOf f (newUsers f users) = [] ∧
    newUsers f (newUsers f users) = newUsers f users ∧
    ∀ u ∈ newUsers f users, validUser u = true →
      fastPath u = true ∧ processUser f u = Decision.skip := by
  have hgood : ∀ u2 ∈ newUsers f users, validUser u2 = true → fastPath u2 = true := by
    intro u2 hmem hv2
    unfold newUsers at hmem
    rw [List.mem_filterMap] at hmem
    obtain ⟨u, hu, hfate⟩ := hmem
    by_cases hv : validUser u
    · rcases userFate_good f H u hv with hnone | ⟨u3, hsome, _, hfp3⟩
      · rw [hnone] at hfate; cases hfate
      · rw [hsome] at hfate
        obtain rfl := Option.some.inj hfate
        exact hfp3
    · have : userFate f u = some u := by
        unfold userFate
        rw [if_neg hv]
      rw [this] at hfate
      obtain rfl := Option.some.inj hfate
      rw [hv2] at hv
      cases hv rfl
  have hskip : ∀ u2 ∈ (newUsers f users).filter validUser, processUser f u2 = Decision.skip := by
    intro u2 hmem
    have h1 := List.mem_filter.mp hmem
    exact fastPath_skip f u2 (hgood u2 h1.1 h1.2)
  refine ⟨?_, ?_, ?_, ?_⟩
  · unfold updatesOf
    rw [List.filterMap_eq_nil_iff]
    intro u2 hmem
    rw [hskip u2 hmem]
  · unfold deletedOf
    rw [List.filterMap_eq_nil_iff]
    intro u2 hmem
    rw [hskip u2 hmem]
  · unfold newUsers
    refine filterMap_self _ _ ?_
    intro u2 hmem
    by_cases hv : validUser u2
    · have hfp := hgood u2 hmem hv
      have hsk := fastPath_skip f u2 hfp
      unfold userFate
      rw [if_pos hv, hsk]
    · unfold userFate
      rw [if_neg hv]
  · intro u2 hmem hv
    have hfp := hgood u2 hmem hv
    exact ⟨hfp, fastPath_skip f u2 hfp⟩

/-- Witness for `updater_idempotent`: a two-record store (one without a
wallet address, one fully reconciled by the first run) under a constant
well-formed chain answer. -/
theorem updater_idempotent_witness :
    updatesOf (fun _ => some { objectId := some "oid", name := some "Nm", wallet := some "w1" })
      (newUsers (fun _ => some { objectId := some "oid", name := some "Nm", wallet := some "w1" })
        [{ uid := 1, walletAddress := some "a", refNumber := none, nft := .missing,
           nftName := none, walletId := none, nftData := none, telegramId := none,
           twitterId := none, population := 0 },
         { uid := 2, walletAddress := none, refNumber := none, nft := .missing,
           nftName := none, walletId := none, nftData := none, telegramId := none,
           twitterId := none, population := 0 }]) = [] ∧
    deletedOf (fun _ => some { objectId := some "oid", name := some "Nm", wallet := some "w1" })
      (newUsers (fun _ => some { objectId := some "oid", name := some "Nm", wallet := some "w1" })
        [{ uid := 1, walletAddress := some "a", refNumber := none, nft := .missing,
           nftName := none, walletId := none, nftData := none, telegramId := none,
           twitterId := none, population := 0 },
         { uid := 2, walletAddress := none, refNumber := none, nft := .missing,
           nftName := none, walletId := none, nftData := none, telegramId := none,
           twitterId := none, population := 0 }]) = [] ∧
    newUsers (fun _ => some { objectId := some "oid", name := some "Nm", wallet := some "w1" })
      (newUsers (fun _ => some { objectId := some "oid", name := some "Nm", wallet := some "w1" })
        [{ uid := 1, walletAddress := some "a", refNumber := none, nft := .missing,
           nftName := none, walletId := none, nftData := none, telegramId := none,
           twitterId := none, population := 0 },
         { uid := 2, walletAddress := none, refNumber := none, nft := .missing,
           nftName := none, walletId := none, nftData := none, telegramId := none,
           twitterId := none, population := 0 }]) =
      newUsers (fun _ => some { objectId := some "oid", name := some "Nm", wallet := some "w1" })
        [{ uid := 1, walletAddress := some "a", refNumber := none, nft := .missing,
           nftName := none, walletId := none, nftData := none, telegramId := none,
           twitterId := none, population := 0 },
         { uid := 2, walletAddress := none, refNumber := none, nft := .missing,
           nftName := none, walletId := none, nftData := none, telegramId := none,
           twitterId := none, population := 0 }] ∧
    ∀ u ∈ newUsers (fun _ => some { objectId := some "oid", name := some "Nm", wallet := some "w1" })
        [{ uid := 1, walletAddress := some "a", refNumber := none, nft := .missing,
           nftName := none, walletId := none, nftData := none, telegramId := none,
           twitterId := none, population := 0 },
         { uid := 2, walletAddress := none, refNumber := none, nft := .missing,
           nftName := none, walletId := none, nftData := none, telegramId := none,
           twitterId := none, population := 0 }], validUser u = true →
      fastPath u = true ∧
        processUser (fun _ => some { objectId := some "oid", name := some "Nm", wallet := some "w1" }) u
          = Decision.skip := by
  refine updater_idempotent _ _ ?_
  intro w n h
  obtain rfl := Option.some.inj h
  exact ⟨rfl, rfl⟩

/-- C1 counterexample: the claim as stated quantifies over every chain
answer.  With a snapshot that carries a wallet field but no objectId, the
first run succeeds and writes (`$set { nft: undefined }` stores a falsy
`nft`), the record survives, and the second run against the unchanged
chain produces another non-empty bulk-write batch: the second run's
writes are not zero and the surviving record does not take the fast
path. -/
theorem updater_not_idempotent_without_wellformed :
    deletedOf (fun _ => some { objectId := none, name := some "Nm", wallet := some "w1" })
      [{ uid := 1, walletAddress := some "a", refNumber := none, nft := .missing,
         nftName := none, walletId := none, nftData := none, telegramId := none,
         twitterId := none, population := 0 }] = [] ∧
    updatesOf (fun _ => some { objectId := none, name := some "Nm", wallet := some "w1" })
      (newUsers (fun _ => some { objectId := none, name := some "Nm", wallet := some "w1" })
        [{ uid := 1, walletAddress := some "a", refNumber := none, nft := .missing,
           nftName := none, walletId := none, nftData := none, telegramId := none,
           twitterId := none, population := 0 }]) =
      [(1, { walletId := none, nftName := some "Nm", nft := some none,
             nftData := some { objectId := none, name := some "Nm", wallet := some "w1" } })] := by
  constructor <;> decide

/-- The digit character of a digit value is a digit. -/
theorem isDig_digitChar (m : Nat) (h : m < 10) : isDig (Nat.digitChar m) = true := by
  interval_cases m <;> decide

/-- The digit character round-trips through its value. -/
theorem digitVal_digitChar (m : Nat) (h : m < 10) : digitVal (Nat.digitChar m) = m := by
  interval_cases m <;> decide

/-- Every rendered digit character is a digit. -/
theorem natDigitsAux_digits :
    ∀ fuel n, n < fuel → ∀ c ∈ natDigitsAux fuel n, isDig c = true := by
  intro fuel
  induction fuel with
  | zero => intro n h; omega
  | succ fuel ih =>
    intro n h c hc
    unfold natDigitsAux at hc
    by_cases h10 : n < 10
    · rw [if_pos h10] at hc
      rcases List.mem_singleton.mp hc with rfl
      exact isDig_digitChar n h10
    · rw [if_neg h10] at hc
      rcases List.mem_append.mp hc with h1 | h2
      · exact ih (n / 10) (by omega) c h1
      · rcases List.mem_singleton.mp h2 with rfl
        exact isDig_digitChar _ (Nat.mod_lt n (by omega))

/-- The digit list evaluates back to the number under the parser's
accumulator fold. -/
theorem natDigitsAux_foldl :
    ∀ fuel n, n < fuel → ∀ acc : Nat,
      (natDigitsAux fuel n).foldl (fun a c => 10 * a + digitVal c) acc =
        acc * 10 ^ (natDigitsAux fuel n).length + n := by
  intro fuel
  induction fuel with
  | zero => intro n h; omega
  | succ fuel ih =>
    intro n h acc
    unfold natDigitsAux
    by_cases h10 : n < 10
    · rw [if_pos h10]
      simp [digitVal_digitChar n h10]
      omega
    · rw [if_neg h10]
      rw [List.foldl_append, ih (n / 10) (by omega) acc]
      have hmod := Nat.div_add_mod n 10
      simp only [List.foldl_cons, List.foldl_nil, List.length_append, List.length_cons,
        List.length_nil, digitVal_digitChar (n % 10) (Nat.mod_lt n (by omega))]
      have : acc * 10 ^ ((natDigitsAux fuel (n / 10)).length + (0 + 1)) =
          acc * 10 ^ (natDigitsAux fuel (n / 10)).length * 10 := by
        rw [pow_succ]
        ring
      rw [this]
      omega

/-- At least one digit is always rendered. -/
theorem natDigitsAux_len_pos :
    ∀ fuel n, n < fuel → 1 ≤ (natDigitsAux fuel n).length := by
  intro fuel
  induction fuel with
  | zero => intro n h; omega
  | succ fuel _ =>
    intro n _
    unfold natDigitsAux
    by_cases h10 : n < 10
    · rw [if_pos h10]; simp
    · rw [if_neg h10]; simp

/-- `natDigits` digits are digits. -/
theorem natDigits_digits (n : Nat) : ∀ c ∈ natDigits n, isDig c = true :=
  natDigitsAux_digits (n + 1) n (by omega)

/-- `natDigits` value under the parser's fold. -/
theorem natDigits_foldl (n : Nat) (acc : Nat) :
    (natDigits n).foldl (fun a c => 10 * a + digitVal c) acc =
      acc * 10 ^ (natDigits n).length + n :=
  natDigitsAux_foldl (n + 1) n (by omega) acc

/-- `natDigits` is nonempty. -/
theorem natDigits_len_pos (n : Nat) : 1 ≤ (natDigits n).length :=
  natDigitsAux_len_pos (n + 1) n (by omega)

/-- A two-digit number renders as exactly two characters. -/
theorem natDigits_len_two (m : Nat) (h1 : 10 ≤ m) (h2 : m < 100) :
    (natDigits m).length = 2 := by
  obtain ⟨k, rfl⟩ : ∃ k, m = k + 1 := ⟨m - 1, by omega⟩
  unfold natDigits natDigitsAux
  rw [if_neg (by omega)]
  have hq : natDigitsAux (k + 1) ((k + 1) / 10) = [Nat.digitChar ((k + 1) / 10)] := by
    unfold natDigitsAux
    rw [if_pos (by omega)]
  rw [hq]
  simp

/-- The two padded fraction characters are digits. -/
theorem pad2_digits (m : Nat) (_h : m < 100) : ∀ c ∈ pad2 m, isDig c = true := by
  intro c hc
  unfold pad2 at hc
  by_cases h10 : m < 10
  · rw [if_pos h10] at hc
    rcases List.mem_cons.mp hc with rfl | hc2
    · decide
    · rcases List.mem_singleton.mp hc2 with rfl
      exact isDig_digitChar m h10
  · rw [if_neg h10] at hc
    exact natDigits_digits m c hc

/-- The padded fraction evaluates to its value and always has length 2. -/
theorem pad2_foldl (m : Nat) (h : m < 100) :
    (pad2 m).foldl (fun a c => 10 * a + digitVal c) 0 = m ∧ (pad2 m).length = 2 := by
  unfold pad2
  by_cases h10 : m < 10
  · rw [if_pos h10]
    constructor
    · have h0 : digitVal '0' = 0 := by decide
      simp [digitVal_digitChar m h10, h0]
    · rfl
  · rw [if_neg h10]
    constructor
    · rw [natDigits_foldl]
      simp
    · exact natDigits_len_two m (by omega) h

/-- Unfolding `takeDigits` at a cons. -/
theorem takeDigits_cons (c : Char) (cs : List Char) (acc : Nat) :
    takeDigits (c :: cs) acc =
      if isDig c then
        match takeDigits cs (10 * acc + digitVal c) with
        | (v, k, r) => (v, k + 1, r)
      else (acc, 0, c :: cs) := rfl

/-- The digit consumer takes exactly a leading all-digit block. -/
theorem takeDigits_append :
    ∀ (ds rest : List Char) (acc : Nat),
      (∀ c ∈ ds, isDig c = true) → headNotDig rest = true →
      takeDigits (ds ++ rest) acc =
        (ds.foldl (fun a c => 10 * a + digitVal c) acc, ds.length, rest) := by
  intro ds
  induction ds with
  | nil =>
    intro rest acc _ hrest
    cases rest with
    | nil => rfl
    | cons c cs =>
      have hnc : isDig c = false := by simpa [headNotDig] using hrest
      rw [List.nil_append, takeDigits_cons, if_neg (by simp [hnc])]
      simp
  | cons c cs ih =>
    intro rest acc hds hrest
    have hc : isDig c = true := hds c (List.mem_cons_self c cs)
    rw [List.cons_append, takeDigits_cons, if_pos hc,
      ih rest _ (fun d hd => hds d (List.mem_cons_of_mem _ hd)) hrest]
    simp

/-- `jsParseFloatCore` on a rendered two-decimal block followed by a
non-digit tail parses the block's value and ignores the tail. -/
theorem jsParseFloatCore_render (a b : Nat) (sfx : List Char) (hb : b < 100)
    (hs : headNotDig sfx = true) :
    jsParseFloatCore (natDigits a ++ '.' :: (pad2 b ++ sfx)) =
      some ((a : Rat) + (b : Rat) / 100) := by
  have h1 := takeDigits_append (natDigits a) ('.' :: (pad2 b ++ sfx)) 0
    (natDigits_digits a) (by rfl)
  have h2 := takeDigits_append (pad2 b) sfx 0 (pad2_digits b hb) hs
  obtain ⟨hval, hlen⟩ := pad2_foldl b hb
  have hlenpos : ¬(natDigits a).length = 0 := by
    have := natDigits_len_pos a
    omega
  unfold jsParseFloatCore
  rw [h1]
  dsimp only
  rw [if_neg hlenpos]
  have hpt : afterPoint ('.' :: (pad2 b ++ sfx)) = some (pad2 b ++ sfx) := by
    show (if '.' = '.' then some (pad2 b ++ sfx) else none) = some (pad2 b ++ sfx)
    rw [if_pos rfl]
  rw [hpt]
  dsimp only
  rw [h2]
  dsimp only
  rw [hval, hlen, natDigits_foldl]
  norm_num

/-- `jsParseFloat` of the same shape (the leading character is a digit, so
the sign branch is not taken). -/
theorem jsParseFloat_render (a b : Nat) (sfx : List Char) (hb : b < 100)
    (hs : headNotDig sfx = true) :
    jsParseFloat ⟨natDigits a ++ '.' :: (pad2 b ++ sfx)⟩ =
      some ((a : Rat) + (b : Rat) / 100) := by
  obtain ⟨c, cs1, hcons⟩ : ∃ c cs1, natDigits a = c :: cs1 := by
    cases hnd : natDigits a with
    | nil =>
      have := natDigits_len_pos a
      rw [hnd] at this
      simp at this
    | cons c cs1 => exact ⟨c, cs1, rfl⟩
  have hdigc : isDig c = true := natDigits_digits a c (hcons ▸ List.mem_cons_self c cs1)
  have hcne : c ≠ '-' := by
    intro h
    rw [h] at hdigc
    cases hdigc
  have hlist : (⟨natDigits a ++ '.' :: (pad2 b ++ sfx)⟩ : String).toList =
      natDigits a ++ '.' :: (pad2 b ++ sfx) := rfl
  have hsign : afterSign (natDigits a ++ '.' :: (pad2 b ++ sfx)) = none := by
    rw [hcons, List.cons_append]
    show (if c = '-' then some (cs1 ++ '.' :: (pad2 b ++ sfx)) else none) = none
    rw [if_neg hcne]
  unfold jsParseFloat
  rw [hlist, hsign]
  exact jsParseFloatCore_render a b sfx hb hs

/-- Every character of a rendered two-decimal block is a digit or the
point. -/
theorem renderCents_chars (N : Nat) :
    ∀ c ∈ natDigits (N / 100) ++ '.' :: pad2 (N % 100), isDig c = true ∨ c = '.' := by
  intro c hc
  rcases List.mem_append.mp hc with h | h
  · exact Or.inl (natDigits_digits _ c h)
  · rcases List.mem_cons.mp h with rfl | h2
    · exact Or.inr rfl
    · exact Or.inl (pad2_digits _ (Nat.mod_lt _ (by omega)) c h2)

/-- A list of digit-or-point characters does not contain a given non-digit
non-point character. -/
theorem contains_false_of_chars (l : List Char) (a : Char)
    (h : ∀ c ∈ l, isDig c = true ∨ c = '.') (ha : isDig a = false) (hd : a ≠ '.') :
    l.contains a = false := by
  rw [List.contains_eq_any_beq, List.any_eq_false]
  intro x hx
  simp only [beq_iff_eq]
  intro he
  subst he
  rcases h a hx with h1 | h1
  · rw [h1] at ha; cases ha
  · exact hd h1

/-- The `k`/`m` strip is the identity on a rendered two-decimal block. -/
theorem renderCents_filter (N : Nat) :
    (natDigits (N / 100) ++ '.' :: pad2 (N % 100)).filter (fun c => !(c = 'k' || c = 'm')) =
      natDigits (N / 100) ++ '.' :: pad2 (N % 100) := by
  rw [List.filter_eq_self]
  intro c hc
  rcases renderCents_chars N c hc with h | rfl
  · by_cases hk : c = 'k'
    · rw [hk] at h
      exact absurd h (by decide)
    · by_cases hm : c = 'm'
      · rw [hm] at h
        exact absurd h (by decide)
      · simp [hk, hm]
  · decide

/-- The rendered block followed by a suffix parses to its value scaled by
whichever of the `m`/`k` suffixes the whole string contains. -/
theorem parseBalance_shape (N : Nat) (sfx sfxF : List Char)
    (hfilter : sfx.filter (fun c => !(c = 'k' || c = 'm')) = sfxF)
    (hF : headNotDig sfxF = true) :
    parseBalance ⟨(natDigits (N / 100) ++ '.' :: pad2 (N % 100)) ++ sfx⟩ =
      if ((natDigits (N / 100) ++ '.' :: pad2 (N % 100)) ++ sfx).contains 'm' then
        (N : Rat) / 100 * 10 ^ 6
      else if ((natDigits (N / 100) ++ '.' :: pad2 (N % 100)) ++ sfx).contains 'k' then
        (N : Rat) / 100 * 10 ^ 3
      else (N : Rat) / 100 := by
  have hstrip : stripKm ⟨(natDigits (N / 100) ++ '.' :: pad2 (N % 100)) ++ sfx⟩ =
      ⟨natDigits (N / 100) ++ '.' :: (pad2 (N % 100) ++ sfxF)⟩ := by
    unfold stripKm
    have : ((⟨(natDigits (N / 100) ++ '.' :: pad2 (N % 100)) ++ sfx⟩ : String)).toList =
        (natDigits (N / 100) ++ '.' :: pad2 (N % 100)) ++ sfx := rfl
    rw [this, List.filter_append, renderCents_filter, hfilter, List.append_assoc,
      List.cons_append]
  have hparse : jsParseFloat ⟨natDigits (N / 100) ++ '.' :: (pad2 (N % 100) ++ sfxF)⟩ =
      some (((N / 100 : Nat) : Rat) + ((N % 100 : Nat) : Rat) / 100) :=
    jsParseFloat_render (N / 100) (N % 100) sfxF (Nat.mod_lt _ (by omega)) hF
  have hval : ((N / 100 : Nat) : Rat) + ((N % 100 : Nat) : Rat) / 100 = (N : Rat) / 100 := by
    have hnat : (100 : Rat) * ((N / 100 : Nat) : Rat) + ((N % 100 : Nat) : Rat) = (N : Rat) := by
      exact_mod_cast (Nat.div_add_mod N 100)
    field_simp
    linarith
  unfold parseBalance
  rw [hstrip, hparse, hval]
  rfl

/-- `contains` is false without membership. -/
theorem contains_false_of_not_mem (l : List Char) (a : Char) (h : a ∉ l) :
    l.contains a = false := by
  rw [List.contains_eq_any_beq, List.any_eq_false]
  intro x hx
  simp only [beq_iff_eq]
  intro he
  subst he
  exact h hx

/-- `contains` is true with membership. -/
theorem contains_true_of_mem (l : List Char) (a : Char) (h : a ∈ l) :
    l.contains a = true := by
  rw [List.contains_eq_any_beq, List.any_eq_true]
  exact ⟨a, h, by simp⟩

/-- The `m`/`k` characters do not occur in a rendered two-decimal block. -/
theorem not_mem_renderCents (N : Nat) (a : Char) (ha : isDig a = false) (hd : a ≠ '.') :
    a ∉ natDigits (N / 100) ++ '.' :: pad2 (N % 100) := by
  intro hmem
  rcases renderCents_chars N a hmem with h | h
  · rw [h] at ha; cases ha
  · exact hd h

/-- A plain rendered block parses to its value. -/
theorem parseBalance_renderCents_plain (N : Nat) :
    parseBalance (renderCents N) = (N : Rat) / 100 := by
  have h := parseBalance_shape N [] [] rfl rfl
  rw [List.append_nil] at h
  have hm : (natDigits (N / 100) ++ '.' :: pad2 (N % 100)).contains 'm' = false :=
    contains_false_of_not_mem _ _ (not_mem_renderCents N 'm' (by decide) (by decide))
  have hk : (natDigits (N / 100) ++ '.' :: pad2 (N % 100)).contains 'k' = false :=
    contains_false_of_not_mem _ _ (not_mem_renderCents N 'k' (by decide) (by decide))
  rw [hm, hk] at h
  rw [if_neg (by simp : ¬(false = true)), if_neg (by simp : ¬(false = true))] at h
  exact h

/-- A rendered block with a one-character suffix other than `k`, `m`, a
digit or the point (`b` and `t` in the program) parses to its bare value:
the suffix is neither stripped nor recognized. -/
theorem parseBalance_renderCents_other (N : Nat) (c : Char) (hdig : isDig c = false)
    (hk : c ≠ 'k') (hm : c ≠ 'm') :
    parseBalance (renderCents N ++ String.mk [c]) = (N : Rat) / 100 := by
  have hfil : [c].filter (fun x => !(x = 'k' || x = 'm')) = [c] := by
    simp [hk, hm]
  have h := parseBalance_shape N [c] [c] hfil (by simp [headNotDig, hdig])
  have hmm : ((natDigits (N / 100) ++ '.' :: pad2 (N % 100)) ++ [c]).contains 'm' = false := by
    refine contains_false_of_not_mem _ _ ?_
    intro hmem
    rcases List.mem_append.mp hmem with h1 | h1
    · exact not_mem_renderCents N 'm' (by decide) (by decide) h1
    · rcases List.mem_singleton.mp h1 with rfl
      exact hm rfl
  have hkk : ((natDigits (N / 100) ++ '.' :: pad2 (N % 100)) ++ [c]).contains 'k' = false := by
    refine contains_false_of_not_mem _ _ ?_
    intro hmem
    rcases List.mem_append.mp hmem with h1 | h1
    · exact not_mem_renderCents N 'k' (by decide) (by decide) h1
    · rcases List.mem_singleton.mp h1 with rfl
      exact hk rfl
  rw [hmm, hkk] at h
  rw [if_neg (by simp : ¬(false = true)), if_neg (by simp : ¬(false = true))] at h
  exact h

/-- A rendered block suffixed `k` parses to its value scaled by 1e3. -/
theorem parseBalance_renderCents_k (N : Nat) :
    parseBalance (renderCents N ++ "k") = (N : Rat) / 100 * 10 ^ 3 := by
  have h := parseBalance_shape N ['k'] [] (by decide) rfl
  have hmm : ((natDigits (N / 100) ++ '.' :: pad2 (N % 100)) ++ ['k']).contains 'm' = false := by
    refine contains_false_of_not_mem _ _ ?_
    intro hmem
    rcases List.mem_append.mp hmem with h1 | h1
    · exact not_mem_renderCents N 'm' (by decide) (by decide) h1
    · cases List.mem_singleton.mp h1
  have hkk : ((natDigits (N / 100) ++ '.' :: pad2 (N % 100)) ++ ['k']).contains 'k' = true :=
    contains_true_of_mem _ _ (List.mem_append.mpr (Or.inr (List.mem_singleton.mpr rfl)))
  rw [hmm, hkk] at h
  rw [if_neg (by simp : ¬(false = true)), if_pos (rfl : (true : Bool) = true)] at h
  exact h

/-- A rendered block suffixed `m` parses to its value scaled by 1e6. -/
theorem parseBalance_renderCents_m (N : Nat) :
    parseBalance (renderCents N ++ "m") = (N : Rat) / 100 * 10 ^ 6 := by
  have h := parseBalance_shape N ['m'] [] (by decide) rfl
  have hmm : ((natDigits (N / 100) ++ '.' :: pad2 (N % 100)) ++ ['m']).contains 'm' = true :=
    contains_true_of_mem _ _ (List.mem_append.mpr (Or.inr (List.mem_singleton.mpr rfl)))
  rw [hmm] at h
  rw [if_pos (rfl : (true : Bool) = true)] at h
  exact h

/-- The sort key `parseBalance ∘ formatBalance`, in closed form: the
two-decimal rounded mantissa times the scale the parser recognizes.  For
values at or above 1e9 the `b`/`t` suffix is ignored by the parser, so
the key collapses to the bare mantissa. -/
theorem parse_format_key (b : Rat) (h0 : 0 ≤ b) :
    parseBalance (formatBalance b) =
      ((round (b / scaleOf b * 100) : Int) : Rat) / 100 *
        (if b ≥ 10 ^ 9 then 1 else scaleOf b) := by
  have hround : ∀ x : Rat, 0 ≤ x → (0 : Int) ≤ round (x * 100) := by
    intro x hx
    rw [round_eq]
    exact Int.floor_nonneg.mpr (by nlinarith)
  have hrf : ∀ x : Rat, 0 ≤ x →
      renderFixed2 x = renderCents (round (x * 100)).toNat := by
    intro x hx
    unfold renderFixed2
    rw [if_neg (by have := hround x hx; omega)]
  have hcast : ∀ x : Rat, 0 ≤ x →
      (((round (x * 100)).toNat : Nat) : Rat) = ((round (x * 100) : Int) : Rat) := by
    intro x hx
    have h2 : (((round (x * 100)).toNat : Int)) = round (x * 100) :=
      Int.toNat_of_nonneg (hround x hx)
    exact_mod_cast h2
  by_cases h12 : b ≥ 10 ^ 12
  · have h9 : b ≥ 10 ^ 9 := le_trans (by norm_num) h12
    have hs : scaleOf b = 10 ^ 12 := by unfold scaleOf; rw [if_pos h12]
    have hfmt : formatBalance b = renderFixed2 (b / 10 ^ 12) ++ "t" := by
      unfold formatBalance; rw [if_pos h12]
    have hxpos : (0 : Rat) ≤ b / 10 ^ 12 := by positivity
    rw [hfmt, hrf _ hxpos, if_pos h9,
      parseBalance_renderCents_other _ 't' (by decide) (by decide) (by decide),
      hcast _ hxpos, hs]
    ring
  · by_cases h9 : b ≥ 10 ^ 9
    · have hs : scaleOf b = 10 ^ 9 := by unfold scaleOf; rw [if_neg h12, if_pos h9]
      have hfmt : formatBalance b = renderFixed2 (b / 10 ^ 9) ++ "b" := by
        unfold formatBalance; rw [if_neg h12, if_pos h9]
      have hxpos : (0 : Rat) ≤ b / 10 ^ 9 := by positivity
      rw [hfmt, hrf _ hxpos, if_pos h9,
        parseBalance_renderCents_other _ 'b' (by decide) (by decide) (by decide),
        hcast _ hxpos, hs]
      ring
    · by_cases h6 : b ≥ 10 ^ 6
      · have hs : scaleOf b = 10 ^ 6 := by unfold scaleOf; rw [if_neg h12, if_neg h9, if_pos h6]
        have hfmt : formatBalance b = renderFixed2 (b / 10 ^ 6) ++ "m" := by
          unfold formatBalance; rw [if_neg h12, if_neg h9, if_pos h6]
        have hxpos : (0 : Rat) ≤ b / 10 ^ 6 := by positivity
        rw [hfmt, hrf _ hxpos, if_neg h9, parseBalance_renderCents_m,
          hcast _ hxpos, hs]
      · by_cases h3 : b ≥ 10 ^ 3
        · have hs : scaleOf b = 10 ^ 3 := by
            unfold scaleOf; rw [if_neg h12, if_neg h9, if_neg h6, if_pos h3]
          have hfmt : formatBalance b = renderFixed2 (b / 10 ^ 3) ++ "k" := by
            unfold formatBalance; rw [if_neg h12, if_neg h9, if_neg h6, if_pos h3]
          have hxpos : (0 : Rat) ≤ b / 10 ^ 3 := by positivity
          rw [hfmt, hrf _ hxpos, if_neg h9, parseBalance_renderCents_k,
            hcast _ hxpos, hs]
        · have hs : scaleOf b = 1 := by
            unfold scaleOf; rw [if_neg h12, if_neg h9, if_neg h6, if_neg h3]
          have hfmt : formatBalance b = renderFixed2 b := by
            unfold formatBalance; rw [if_neg h12, if_neg h9, if_neg h6, if_neg h3]
          rw [hfmt, hrf _ h0, if_neg h9, parseBalance_renderCents_plain,
            hcast _ h0, hs]
          rw [div_one]
          ring

/-- Rounding is monotone. -/
theorem round_mono_rat (x y : Rat) (h : x ≤ y) : round x ≤ round y := by
  rw [round_eq, round_eq]
  exact Int.floor_le_floor (by linarith)

/-- Within one band the key is monotone. -/
theorem key_mono_same (x y s : Rat) (hs : 0 < s) (hxy : x ≤ y) :
    ((round (x / s * 100) : Int) : Rat) / 100 * s ≤
      ((round (y / s * 100) : Int) : Rat) / 100 * s := by
  have h1 : x / s * 100 ≤ y / s * 100 := by gcongr
  have h2 := round_mono_rat _ _ h1
  have h3 : ((round (x / s * 100) : Int) : Rat) ≤ ((round (y / s * 100) : Int) : Rat) := by
    exact_mod_cast h2
  nlinarith

/-- A value at or above its scale has key at least the scale. -/
theorem key_ge_scale (x s : Rat) (hs : 0 < s) (hx : s ≤ x) :
    s ≤ ((round (x / s * 100) : Int) : Rat) / 100 * s := by
  have hxs : 1 ≤ x / s := (one_le_div hs).mpr hx
  have h1 : (100 : Rat) ≤ x / s * 100 := by nlinarith
  have h2 : (100 : Int) ≤ round (x / s * 100) := by
    have h3 := round_mono_rat 100 _ h1
    rwa [show ((100 : Rat)) = ((100 : Int) : Rat) by norm_num, round_intCast] at h3
  have h3 : (100 : Rat) ≤ ((round (x / s * 100) : Int) : Rat) := by exact_mod_cast h2
  nlinarith

/-- A value strictly below a band top `T` (where `T / s * 100` is the
integer `M`) has key at most `T`. -/
theorem key_le_top (x s T : Rat) (M : Int) (hs : 0 < s) (_hx : 0 ≤ x) (hxT : x < T)
    (hM : (M : Rat) = T / s * 100) :
    ((round (x / s * 100) : Int) : Rat) / 100 * s ≤ T := by
  have h1 : x / s * 100 < (M : Rat) := by
    rw [hM]
    gcongr
  have h2 : round (x / s * 100) ≤ M := by
    rw [round_eq]
    have h4 : x / s * 100 + 1 / 2 < ((M + 1 : Int) : Rat) := by push_cast; linarith
    have h5 := Int.floor_lt.mpr h4
    omega
  have h3 : ((round (x / s * 100) : Int) : Rat) ≤ (M : Rat) := by exact_mod_cast h2
  have hT : (M : Rat) / 100 * s = T := by
    rw [hM]
    field_simp
    ring
  nlinarith

/-- Below 1e9 (where only the plain, `k` and `m` bands occur, all of which
the parser understands) the sort key respects the numeric order. -/
theorem parse_format_mono (a b : Rat) (h0 : 0 ≤ a) (hab : a ≤ b) (hb : b < 10 ^ 9) :
    parseBalance (formatBalance a) ≤ parseBalance (formatBalance b) := by
  have h0b : 0 ≤ b := le_trans h0 hab
  have ha9 : ¬(a ≥ 10 ^ 9) := by push_neg; linarith
  have hb9 : ¬(b ≥ 10 ^ 9) := by push_neg; linarith
  have ha12 : ¬(a ≥ 10 ^ 12) := by push_neg; linarith
  have hb12 : ¬(b ≥ 10 ^ 12) := by push_neg; linarith
  rw [parse_format_key a h0, parse_format_key b h0b, if_neg ha9, if_neg hb9]
  by_cases ha6 : a ≥ 10 ^ 6
  · have hb6 : b ≥ 10 ^ 6 := le_trans ha6 hab
    have hsa : scaleOf a = 10 ^ 6 := by
      unfold scaleOf; rw [if_neg ha12, if_neg ha9, if_pos ha6]
    have hsb : scaleOf b = 10 ^ 6 := by
      unfold scaleOf; rw [if_neg hb12, if_neg hb9, if_pos hb6]
    rw [hsa, hsb]
    exact key_mono_same a b _ (by norm_num) hab
  · by_cases hb6 : b ≥ 10 ^ 6
    · have hsb : scaleOf b = 10 ^ 6 := by
        unfold scaleOf; rw [if_neg hb12, if_neg hb9, if_pos hb6]
      rw [hsb]
      have hkeyb := key_ge_scale b (10 ^ 6) (by norm_num) hb6
      by_cases ha3 : a ≥ 10 ^ 3
      · have hsa : scaleOf a = 10 ^ 3 := by
          unfold scaleOf; rw [if_neg ha12, if_neg ha9, if_neg ha6, if_pos ha3]
        rw [hsa]
        have hkeya := key_le_top a (10 ^ 3) (10 ^ 6) 100000 (by norm_num) h0
          (by push_neg at ha6; linarith) (by norm_num)
        linarith
      · have hsa : scaleOf a = 1 := by
          unfold scaleOf; rw [if_neg ha12, if_neg ha9, if_neg ha6, if_neg ha3]
        rw [hsa]
        have hkeya := key_le_top a 1 (10 ^ 3) 100000 (by norm_num) h0
          (by push_neg at ha3; linarith) (by norm_num)
        linarith
    · by_cases ha3 : a ≥ 10 ^ 3
      · have hb3 : b ≥ 10 ^ 3 := le_trans ha3 hab
        have hsa : scaleOf a = 10 ^ 3 := by
          unfold scaleOf; rw [if_neg ha12, if_neg ha9, if_neg ha6, if_pos ha3]
        have hsb : scaleOf b = 10 ^ 3 := by
          unfold scaleOf; rw [if_neg hb12, if_neg hb9, if_neg hb6, if_pos hb3]
        rw [hsa, hsb]
        exact key_mono_same a b _ (by norm_num) hab
      · by_cases hb3 : b ≥ 10 ^ 3
        · have hsa : scaleOf a = 1 := by
            unfold scaleOf; rw [if_neg ha12, if_neg ha9, if_neg ha6, if_neg ha3]
          have hsb : scaleOf b = 10 ^ 3 := by
            unfold scaleOf; rw [if_neg hb12, if_neg hb9, if_neg hb6, if_pos hb3]
          rw [hsa, hsb]
          have hkeya := key_le_top a 1 (10 ^ 3) 100000 (by norm_num) h0
            (by push_neg at ha3; linarith) (by norm_num)
          have hkeyb := key_ge_scale b (10 ^ 3) (by norm_num) hb3
          linarith
        · have hsa : scaleOf a = 1 := by
            unfold scaleOf; rw [if_neg ha12, if_neg ha9, if_neg ha6, if_neg ha3]
          have hsb : scaleOf b = 1 := by
            unfold scaleOf; rw [if_neg hb12, if_neg hb9, if_neg hb6, if_neg hb3]
          rw [hsa, hsb]
          exact key_mono_same a b _ (by norm_num) hab

/-- Membership through the descending insertion. -/
theorem mem_insertDesc (x z : BalanceRow) (l : List BalanceRow) :
    z ∈ insertDesc x l ↔ z = x ∨ z ∈ l := by
  induction l with
  | nil => simp [insertDesc]
  | cons y ys ih =>
    unfold insertDesc
    by_cases h : rowKey y < rowKey x
    · rw [if_pos h]
      simp only [List.mem_cons]
    · rw [if_neg h]
      simp only [List.mem_cons, ih]
      tauto

/-- Descending insertion preserves descending pairwise order of keys. -/
theorem insertDesc_pairwise (x : BalanceRow) (l : List BalanceRow)
    (h : l.Pairwise (fun r s => rowKey s ≤ rowKey r)) :
    (insertDesc x l).Pairwise (fun r s => rowKey s ≤ rowKey r) := by
  induction l with
  | nil => simp [insertDesc]
  | cons y ys ih =>
    rw [List.pairwise_cons] at h
    obtain ⟨hy, hys⟩ := h
    unfold insertDesc
    by_cases hcmp : rowKey y < rowKey x
    · rw [if_pos hcmp]
      refine List.pairwise_cons.mpr ⟨?_, List.pairwise_cons.mpr ⟨hy, hys⟩⟩
      intro z hz
      rcases List.mem_cons.mp hz with rfl | hz2
      · exact le_of_lt hcmp
      · exact le_trans (hy z hz2) (le_of_lt hcmp)
    · rw [if_neg hcmp]
      refine List.pairwise_cons.mpr ⟨?_, ih hys⟩
      intro z hz
      rcases (mem_insertDesc x z ys).mp hz with rfl | hz2
      · exact le_of_not_lt hcmp
      · exact hy z hz2

/-- The report sort always yields a list descending in the parse key. -/
theorem sortDesc_pairwise (rows : List BalanceRow) :
    (sortDesc rows).Pairwise (fun r s => rowKey s ≤ rowKey r) := by
  suffices h : ∀ acc, acc.Pairwise (fun r s => rowKey s ≤ rowKey r) →
      (rows.foldl (fun acc x => insertDesc x acc) acc).Pairwise
        (fun r s => rowKey s ≤ rowKey r) by
    exact h [] (by simp)
  induction rows with
  | nil => intro acc hacc; exact hacc
  | cons x xs ih =>
    intro acc hacc
    exact ih _ (insertDesc_pairwise x acc hacc)

/-- C3, as it holds on the code: the report rows are sorted descending by
the comparator's key `parseBalance (row.sityBalance)`, and below 1e9 that
key respects the true numeric balance order (so there the sorted report
is ordered descending by true balance, up to two-decimal rounding ties).
At or above 1e9 the key ignores the `b`/`t` suffix, so descending true
order fails (see the counterexample). -/
theorem sortedBalances_by_key :
    (∀ (oracle : String → Except Unit (Option Rat)) (users : List UserRec),
      (sortedBalances oracle users).Pairwise (fun r s => rowKey s ≤ rowKey r)) ∧
    (∀ a b : Rat, 0 ≤ a → a ≤ b → b < 10 ^ 9 →
      parseBalance (formatBalance a) ≤ parseBalance (formatBalance b)) :=
  ⟨fun _ _users => sortDesc_pairwise _, parse_format_mono⟩

/-- Witness for `sortedBalances_by_key` at a concrete two-user store and
at the balances 950 and 999000. -/
theorem sortedBalances_by_key_witness :
    (sortedBalances
      (fun w => if w = "a" then .ok (some (2 * 10 ^ 12)) else .ok (some 950000))
      [{ uid := 1, walletAddress := some "wa1", refNumber := none, nft := .missing,
         nftName := none, walletId := some "a", nftData := none, telegramId := none,
         twitterId := none, population := 0 },
       { uid := 2, walletAddress := some "wa2", refNumber := none, nft := .missing,
         nftName := none, walletId := some "c", nftData := none, telegramId := none,
         twitterId := none, population := 0 }]).Pairwise
        (fun r s => rowKey s ≤ rowKey r) ∧
    parseBalance (formatBalance (950 : Rat)) ≤ parseBalance (formatBalance (999000 : Rat)) :=
  ⟨sortedBalances_by_key.1 _ _,
   sortedBalances_by_key.2 950 999000 (by norm_num) (by norm_num) (by norm_num)⟩

/-- C3 counterexample: with raw balances 2e12 and 950000 the normalized
balances are 2e9 and 950; they format to "2.00b" and "950.00", the parser
reads the first as 2 (the `b` suffix is neither stripped nor scaled), and
the sorted report puts the 950-balance row before the 2e9-balance row —
the record with the larger true balance does not precede the smaller. -/
theorem sortedBalances_not_by_true_value :
    (sortedBalances
      (fun w => if w = "a" then .ok (some (2 * 10 ^ 12)) else .ok (some 950000))
      [{ uid := 1, walletAddress := some "wa1", refNumber := none, nft := .missing,
         nftName := none, walletId := some "a", nftData := none, telegramId := none,
         twitterId := none, population := 0 },
       { uid := 2, walletAddress := some "wa2", refNumber := none, nft := .missing,
         nftName := none, walletId := some "c", nftData := none, telegramId := none,
         twitterId := none, population := 0 }]).map (fun r => r.sityBalance) =
      ["950.00", "2.00b"] ∧
    balOf (fun w => if w = "a" then .ok (some (2 * 10 ^ 12)) else .ok (some 950000))
      ({ uid := 1, walletAddress := some "wa1", refNumber := none, nft := .missing,
         nftName := none, walletId := some "a", nftData := none, telegramId := none,
         twitterId := none, population := 0 }) = 2 * 10 ^ 9 ∧
    balOf (fun w => if w = "a" then .ok (some (2 * 10 ^ 12)) else .ok (some 950000))
      ({ uid := 2, walletAddress := some "wa2", refNumber := none, nft := .missing,
         nftName := none, walletId := some "c", nftData := none, telegramId := none,
         twitterId := none, population := 0 }) = 950 ∧
    (950 : Rat) < 2 * 10 ^ 9 := by
  refine ⟨by decide, by decide, by decide, by norm_num⟩

/-- C4, as it holds on the code: `formatBalance` picks its suffix by the
1e12/1e9/1e6/1e3 thresholds with the mantissa rounded to two decimals,
and for inputs below 1e9 the parse of the formatted string recovers the
input within half a unit of the last rendered decimal (scale/200).  At
1e9 and above the round-trip fails because `parseBalance` ignores the
`b`/`t` suffixes (see the counterexample). -/
theorem format_thresholds_roundtrip (n : Rat) (h0 : 0 ≤ n) :
    formatBalance n = renderFixed2 (n / scaleOf n) ++ suffixOf n ∧
    (n < 10 ^ 9 → |parseBalance (formatBalance n) - n| ≤ scaleOf n / 200) := by
  constructor
  · by_cases h12 : n ≥ 10 ^ 12
    · unfold formatBalance scaleOf suffixOf
      rw [if_pos h12, if_pos h12, if_pos h12]
    · by_cases h9 : n ≥ 10 ^ 9
      · unfold formatBalance scaleOf suffixOf
        rw [if_neg h12, if_neg h12, if_neg h12, if_pos h9, if_pos h9, if_pos h9]
      · by_cases h6 : n ≥ 10 ^ 6
        · unfold formatBalance scaleOf suffixOf
          rw [if_neg h12, if_neg h12, if_neg h12, if_neg h9, if_neg h9, if_neg h9,
            if_pos h6, if_pos h6, if_pos h6]
        · by_cases h3 : n ≥ 10 ^ 3
          · unfold formatBalance scaleOf suffixOf
            rw [if_neg h12, if_neg h12, if_neg h12, if_neg h9, if_neg h9, if_neg h9,
              if_neg h6, if_neg h6, if_neg h6, if_pos h3, if_pos h3, if_pos h3]
          · unfold formatBalance scaleOf suffixOf
            rw [if_neg h12, if_neg h12, if_neg h12, if_neg h9, if_neg h9, if_neg h9,
              if_neg h6, if_neg h6, if_neg h6, if_neg h3, if_neg h3, if_neg h3,
              div_one]
            cases hrf : renderFixed2 n with
            | mk l => exact congrArg String.mk (List.append_nil l).symm
  · intro h9
    have hkey := parse_format_key n h0
    rw [if_neg (not_le.mpr h9)] at hkey
    rw [hkey]
    have hspos : 0 < scaleOf n := by
      unfold scaleOf
      split_ifs <;> norm_num
    have hdiff : ((round (n / scaleOf n * 100) : Int) : Rat) / 100 * scaleOf n - n =
        (((round (n / scaleOf n * 100) : Int) : Rat) - n / scaleOf n * 100) *
          (scaleOf n / 100) := by
      field_simp
      ring
    rw [hdiff, abs_mul]
    have habs2 : |((round (n / scaleOf n * 100) : Int) : Rat) - n / scaleOf n * 100| ≤ 1 / 2 := by
      rw [abs_sub_comm]
      exact abs_sub_round _
    have habs3 : |scaleOf n / 100| = scaleOf n / 100 := abs_of_nonneg (by positivity)
    rw [habs3]
    nlinarith

/-- Witness for `format_thresholds_roundtrip` at 1234. -/
theorem format_thresholds_roundtrip_witness :
    formatBalance (1234 : Rat) =
      renderFixed2 ((1234 : Rat) / scaleOf 1234) ++ suffixOf 1234 ∧
    ((1234 : Rat) < 10 ^ 9 →
      |parseBalance (formatBalance (1234 : Rat)) - 1234| ≤ scaleOf 1234 / 200) :=
  format_thresholds_roundtrip 1234 (by norm_num)

/-- C4 counterexample: 2e9 formats to "2.00b" but parses back to 2, so
`parse(format(n))` does not recover n within the two-decimal rounding
error (which at scale 1e9 would allow at most 5e6 of deviation). -/
theorem roundtrip_fails_at_2e9 :
    formatBalance (2 * 10 ^ 9 : Rat) = "2.00b" ∧
    parseBalance (formatBalance (2 * 10 ^ 9 : Rat)) = 2 ∧
    ¬(|parseBalance (formatBalance (2 * 10 ^ 9 : Rat)) - 2 * 10 ^ 9| ≤
        scaleOf (2 * 10 ^ 9) / 200) := by
  refine ⟨by decide, by decide, ?_⟩
  have h2 : parseBalance (formatBalance (2 * 10 ^ 9 : Rat)) = 2 := by decide
  have hs : scaleOf (2 * 10 ^ 9 : Rat) = 10 ^ 9 := by
    unfold scaleOf
    rw [if_neg (by norm_num), if_pos (by norm_num)]
  rw [h2, hs]
  intro habs
  have : |(2 : Rat) - 2 * 10 ^ 9| = 2 * 10 ^ 9 - 2 := by
    rw [abs_sub_comm]
    exact abs_of_nonneg (by norm_num)
  rw [this] at habs
  norm_num at habs

end SuiCity
